import Mathlib

/-!
Verification of the Envoy agent runtime: a shallow embedding of the agent
loop, the sandboxed custom-tool executor, the tool/integration catalogs, the
scheduler, and the credential manager, together with theorems that settle the
specification claims against this embedding.

Conventions of the embedding:
* JavaScript runtime values that flow through the code (tool return values,
  message parts, parsed JSON schemas) are modelled by the `JValue` type.
* Database tables are modelled as Lean lists of row structures; SQL reads and
  writes become list operations mirroring the statements in the source.
* Asynchronous outcomes that the code only observes (a sandboxed promise
  settling, the model stream finishing) are modelled as explicit data fed to
  the embedded function.
-/

namespace Envoy

/-- JavaScript runtime value, as far as the agent runtime inspects values:
`undefined`, `null`, booleans, (integer) numbers, strings, arrays, objects. -/
inductive JValue where
  | undefined
  | null
  | bool (b : Bool)
  | num (n : Int)
  | str (s : String)
  | arr (elems : List JValue)
  | obj (fields : List (String × JValue))

instance : Inhabited JValue := ⟨JValue.undefined⟩

/-- JavaScript truthiness of a value. -/
def JValue.truthy : JValue → Bool
  | .undefined => false
  | .null => false
  | .bool b => b
  | .num n => n != 0
  | .str s => s != ""
  | .arr _ => true
  | .obj _ => true

/-- Strict equality `v === "s"` between a JS value and a string literal. -/
def JValue.eqStr : JValue → String → Bool
  | .str t, s => t == s
  | _, _ => false

/-- Whether the value is `undefined` or `null` (the JS nullish values). -/
def JValue.isNullish : JValue → Bool
  | .undefined => true
  | .null => true
  | _ => false

/-- Whether `typeof v === "string"`. -/
def JValue.isStr : JValue → Bool
  | .str _ => true
  | _ => false

/-- Whether `Array.isArray(v)`. -/
def JValue.isArray : JValue → Bool
  | .arr _ => true
  | _ => false

/-- Property read `o[k]` on a non-nullish receiver: an object yields the bound
value or `undefined`; primitives and arrays yield `undefined` for the
property names the runtime reads. -/
def JValue.getProp : JValue → String → JValue
  | .obj fields, k => (((fields.find? (fun kv => kv.1 == k)).map (·.2)).getD .undefined)
  | _, _ => .undefined

/-- Property read `o[k]` as the JS semantics has it: reading a property of
`null` or `undefined` throws a `TypeError`. -/
def JValue.getPropExc : JValue → String → Except String JValue
  | .undefined, _ => .error "TypeError: Cannot read properties of undefined"
  | .null, _ => .error "TypeError: Cannot read properties of null"
  | v, k => .ok (v.getProp k)

/-- Assignment `o[k] = v` on the field list of an object: overwrite in place if the
key exists, otherwise append. -/
def setField (fields : List (String × JValue)) (k : String) (v : JValue) :
    List (String × JValue) :=
  if fields.any (fun kv => kv.1 == k) then
    fields.map (fun kv => if kv.1 == k then (kv.1, v) else kv)
  else
    fields ++ [(k, v)]

/-- Minimal JSON string escaping used by `JSON.stringify` for the characters
strings in this runtime can contain. -/
def jsonQuote (s : String) : String :=
  "\"" ++ String.join (s.data.map (fun c =>
    if c = '"' then "\\\""
    else if c = '\\' then "\\\\"
    else if c = '\n' then "\\n"
    else String.mk [c])) ++ "\""

mutual

/-- Embedding of compact `JSON.stringify(v)`: `none` models the call returning
`undefined` (which happens exactly when `v` is `undefined`). -/
def jsonStringify : JValue → Option String
  | .undefined => none
  | .null => some "null"
  | .bool b => some (if b then "true" else "false")
  | .num n => some (toString n)
  | .str s => some (jsonQuote s)
  | .arr elems => some ("[" ++ String.intercalate "," (jsonStringifyElems elems) ++ "]")
  | .obj fields => some ("\x7b" ++ String.intercalate "," (jsonStringifyFields fields) ++ "\x7d")

/-- Array elements under `JSON.stringify`: an `undefined` element prints as
`null`. -/
def jsonStringifyElems : List JValue → List String
  | [] => []
  | v :: vs => ((jsonStringify v).getD "null") :: jsonStringifyElems vs

/-- Object fields under `JSON.stringify`: a field whose value stringifies to
`undefined` is dropped. -/
def jsonStringifyFields : List (String × JValue) → List String
  | [] => []
  | (k, v) :: fs =>
    match jsonStringify v with
    | some s => (jsonQuote k ++ ":" ++ s) :: jsonStringifyFields fs
    | none => jsonStringifyFields fs

end

/-- Indentation of `2 * n` spaces used by pretty `JSON.stringify(v, null, 2)`. -/
def jsonPad (n : Nat) : String := String.mk (List.replicate (2 * n) ' ')

mutual

/-- Embedding of pretty `JSON.stringify(v, null, 2)` at nesting depth `depth`. -/
def jsonStringifyPrettyAt (depth : Nat) : JValue → Option String
  | .undefined => none
  | .null => some "null"
  | .bool b => some (if b then "true" else "false")
  | .num n => some (toString n)
  | .str s => some (jsonQuote s)
  | .arr [] => some "[]"
  | .arr (v :: vs) =>
    some ("[\n" ++
      String.intercalate ",\n"
        ((jsonStringifyPrettyElems depth (v :: vs)).map (fun s => jsonPad (depth + 1) ++ s)) ++
      "\n" ++ jsonPad depth ++ "]")
  | .obj [] => some "\x7b\x7d"
  | .obj (f :: fs) =>
    some ("\x7b\n" ++
      String.intercalate ",\n"
        ((jsonStringifyPrettyFields depth (f :: fs)).map (fun s => jsonPad (depth + 1) ++ s)) ++
      "\n" ++ jsonPad depth ++ "\x7d")

/-- Array elements under pretty `JSON.stringify`. -/
def jsonStringifyPrettyElems (depth : Nat) : List JValue → List String
  | [] => []
  | v :: vs =>
    ((jsonStringifyPrettyAt (depth + 1) v).getD "null") :: jsonStringifyPrettyElems depth vs

/-- Object fields under pretty `JSON.stringify`. -/
def jsonStringifyPrettyFields (depth : Nat) : List (String × JValue) → List String
  | [] => []
  | (k, v) :: fs =>
    match jsonStringifyPrettyAt (depth + 1) v with
    | some s => (jsonQuote k ++ ": " ++ s) :: jsonStringifyPrettyFields depth fs
    | none => jsonStringifyPrettyFields depth fs

end

/-- Top-level pretty `JSON.stringify(v, null, 2)`. -/
def jsonStringifyPretty (v : JValue) : Option String := jsonStringifyPrettyAt 0 v

/-! ## Sandboxed executor (`src/api/tools/custom-executor.ts`) -/

/-- Observable outcome of racing the compiled tool body against the 30 second
timer: the promise resolves with a value, the compilation or the body throws,
or the timer wins the race. -/
inductive ToolOutcome where
  | resolved (value : JValue)
  | thrown (message : String)
  | timedOut

/-- Message of the error the timeout promise rejects with. -/
def timeoutMessage : String := "Tool execution timed out after 30 seconds"

/-- Result of `await Promise.race([resultPromise, timeoutPromise])`, as seen by
the surrounding `try`. -/
def raceResult : ToolOutcome → Except String JValue
  | .resolved v => .ok v
  | .thrown m => .error m
  | .timedOut => .error timeoutMessage

/-- Embedding of `executeCustomTool`: coerce the settled value to a string, or
turn the caught error into an in-band `"Error executing tool: …"` string. -/
def executeCustomTool (outcome : ToolOutcome) : String :=
  match raceResult outcome with
  | .ok result =>
    match result with
    | .undefined => "Tool executed successfully (no return value)."
    | .null => "Tool executed successfully (no return value)."
    | .str s => s
    | r => (jsonStringifyPretty r).getD "undefined"
  | .error message => "Error executing tool: " ++ message

/-- C2: `executeCustomTool` always returns a string and never raises: a
resolved `undefined` or `null` yields the no-return-value message, a resolved
string passes through unchanged, any other resolved value is pretty-printed
as JSON with two-space indentation, a thrown error yields
`"Error executing tool: <message>"`, and the 30-second timeout yields
`"Error executing tool: Tool execution timed out after 30 seconds"`. -/
theorem executeCustomTool_spec :
    (executeCustomTool (.resolved .undefined) = "Tool executed successfully (no return value).") ∧
    (executeCustomTool (.resolved .null) = "Tool executed successfully (no return value).") ∧
    (∀ s, executeCustomTool (.resolved (.str s)) = s) ∧
    (∀ v : JValue, v.isNullish = false → v.isStr = false →
      executeCustomTool (.resolved v) = (jsonStringifyPretty v).getD "undefined") ∧
    (∀ m, executeCustomTool (.thrown m) = "Error executing tool: " ++ m) ∧
    (executeCustomTool .timedOut =
      "Error executing tool: Tool execution timed out after 30 seconds") := by
  refine ⟨rfl, rfl, fun s => rfl, fun v h1 h2 => ?_, fun m => rfl, rfl⟩
  cases v with
  | undefined => simp [JValue.isNullish] at h1
  | null => simp [JValue.isNullish] at h1
  | str s => simp [JValue.isStr] at h2
  | bool b => rfl
  | num n => rfl
  | arr es => rfl
  | obj fs => rfl

/-- Concrete instance of the executor contract: a resolved boolean is printed
as JSON, and the timeout produces the documented in-band error string. -/
theorem executeCustomTool_spec_witness :
    executeCustomTool (.resolved (.bool true)) = "true" ∧
    executeCustomTool (.resolved (.obj [("ok", .bool true)])) =
      "\x7b\n  \"ok\": true\n\x7d" ∧
    executeCustomTool .timedOut =
      "Error executing tool: Tool execution timed out after 30 seconds" :=
  ⟨(executeCustomTool_spec.2.2.2.1 (.bool true) rfl rfl).trans rfl,
   (executeCustomTool_spec.2.2.2.1 (.obj [("ok", .bool true)]) rfl rfl).trans rfl,
   executeCustomTool_spec.2.2.2.2.2⟩

/-! ## Credential masking (`src/api/integrations/env-manager.ts`) -/

/-- Mask of one environment value: the body of the loop of
`getMaskedEnvValues`. `none` models the JS `null`. The guard `!value` is JS
falsiness, which holds for an unset variable and for the empty string. -/
def maskEnvValue (value : Option String) : Option String :=
  match value with
  | none => none
  | some v =>
    if v = "" then none
    else if v.length ≤ 8 then some "***"
    else some (String.mk (v.data.take 3) ++ "***" ++ String.mk (v.data.drop (v.length - 3)))

/-- Embedding of `getMaskedEnvValues`: one masked entry per declared key, read
from the live environment `env`. -/
def getMaskedEnvValues (env : String → Option String) (keys : List String) :
    List (String × Option String) :=
  keys.map (fun key => (key, maskEnvValue (env key)))

/-- Claim C5 as stated: `null` exactly when the key is unset, `"***"` whenever
the key is set to a value of length at most 8, and `first3***last3` otherwise. -/
def MaskedClaimAsStated : Prop :=
  ∀ (env : String → Option String) (key : String),
    (env key = none → getMaskedEnvValues env [key] = [(key, none)]) ∧
    (∀ v, env key = some v → v.length ≤ 8 →
      getMaskedEnvValues env [key] = [(key, some "***")]) ∧
    (∀ v, env key = some v → 8 < v.length →
      getMaskedEnvValues env [key] =
        [(key, some (String.mk (v.data.take 3) ++ "***" ++
          String.mk (v.data.drop (v.length - 3))))])

/-- C5 (counterexample): the claim as stated fails on a key that is set to the
empty string — its length is at most 8, yet the code returns `null` rather
than `"***"`, because the `!value` guard also fires on `""`. -/
theorem getMaskedEnvValues_claim_refuted : ¬ MaskedClaimAsStated := by
  intro h
  have h2 := ((h (fun _ => some "") "KEY").2.1) "" rfl (by decide)
  simp [getMaskedEnvValues, maskEnvValue] at h2

/-- C5 (amended): for every declared key, the masked value is `null` when the
key is unset or set to the empty string, `"***"` when the value is nonempty of
length at most 8, and the first three characters followed by `"***"` followed
by the last three characters when the value is longer than 8. -/
theorem getMaskedEnvValues_masking (env : String → Option String) (key : String) :
    (env key = none → getMaskedEnvValues env [key] = [(key, none)]) ∧
    (env key = some "" → getMaskedEnvValues env [key] = [(key, none)]) ∧
    (∀ v, env key = some v → v ≠ "" → v.length ≤ 8 →
      getMaskedEnvValues env [key] = [(key, some "***")]) ∧
    (∀ v, env key = some v → 8 < v.length →
      getMaskedEnvValues env [key] =
        [(key, some (String.mk (v.data.take 3) ++ "***" ++
          String.mk (v.data.drop (v.length - 3))))]) := by
  refine ⟨fun h => ?_, fun h => ?_, fun v h hne hle => ?_, fun v h hgt => ?_⟩
  · simp [getMaskedEnvValues, maskEnvValue, h]
  · simp [getMaskedEnvValues, maskEnvValue, h]
  · simp [getMaskedEnvValues, maskEnvValue, h, hne, hle]
  · have hne : ¬ v = "" := by
      intro e
      subst e
      exact absurd hgt (by decide)
    have hnle : ¬ v.length ≤ 8 := by omega
    simp [getMaskedEnvValues, maskEnvValue, h, hne, hnle]

/-- Concrete instance of the amended masking law: an unset key masks to
`null`, `"secret"` masks to `"***"`, and `"secret-token-123"` masks to
`"sec***123"`. -/
theorem getMaskedEnvValues_masking_witness :
    getMaskedEnvValues (fun _ => none) ["A"] = [("A", none)] ∧
    getMaskedEnvValues (fun _ => some "secret") ["B"] = [("B", some "***")] ∧
    getMaskedEnvValues (fun _ => some "secret-token-123") ["C"] =
      [("C", some "sec***123")] := by
  refine ⟨(getMaskedEnvValues_masking (fun _ => none) "A").1 rfl, ?_, ?_⟩
  · exact ((getMaskedEnvValues_masking (fun _ => some "secret") "B").2.2.1) "secret" rfl
      (by decide) (by decide)
  · have h := ((getMaskedEnvValues_masking (fun _ => some "secret-token-123") "C").2.2.2)
      "secret-token-123" rfl (by decide)
    simpa using h

/-! ## The agent loop (`src/api/agent/processor.ts`) -/

/-- Structured model message: a role together with a JS content value (a
string for user turns, an array of parts for assistant and tool turns). -/
structure ModelMessage where
  role : String
  content : JValue

/-- Event of the full provider stream for one step. -/
inductive StreamEvent where
  | textDelta (text : String)
  | toolCall (toolCallId toolName : String) (input : JValue)
  | toolResult (toolCallId toolName : String) (output : JValue)
  | streamError (error : String)

/-- What one streaming model call yields once the stream closes: the ordered
stream events, the response messages reported by the provider, and the finish
reason. -/
structure StepResult where
  stream : List StreamEvent
  responseMessages : List ModelMessage
  finishReason : String

/-- The model as the loop sees it: a deterministic map from the current
message list to the outcome of the step (system prompt and tool set are fixed for
the turn). -/
def ModelFn := List ModelMessage → StepResult

/-- Event emitted to the per-session event bus. -/
inductive AgentEvent where
  | start
  | delta (content : String)
  | toolCallsEvent (toolCallId toolName : String) (args : JValue)
  | toolResultsEvent (toolCallId toolName : String) (result : JValue)
  | done (content : String)

/-- Events emitted while consuming the stream of one step: a `delta` per text
delta, a singleton `tool_calls` per tool-call event, a singleton
`tool_results` per tool-result event; a stream error is only logged. -/
def eventsOfStream : List StreamEvent → List AgentEvent
  | [] => []
  | .textDelta t :: rest => .delta t :: eventsOfStream rest
  | .toolCall id n i :: rest => .toolCallsEvent id n i :: eventsOfStream rest
  | .toolResult id n o :: rest => .toolResultsEvent id n o :: eventsOfStream rest
  | .streamError _ :: rest => eventsOfStream rest

/-- Text accumulated into `fullText` while consuming the stream of one step. -/
def textOfStream : List StreamEvent → String
  | [] => ""
  | .textDelta t :: rest => t ++ textOfStream rest
  | _ :: rest => textOfStream rest

/-- Hard bound on the number of model steps within one turn. -/
def MAX_STEPS : Nat := 10

/-- Embedding of the `for` loop body of `processTurn`: at each step call the
model, emit the events of the stream, accumulate the text, splice the response
messages onto the history, and re-enter only when the finish reason is
`"tool-calls"`. -/
def loopSteps (model : ModelFn) :
    Nat → List ModelMessage → String → List AgentEvent →
      String × List ModelMessage × List AgentEvent
  | 0, messages, fullText, events => (fullText, messages, events)
  | fuel + 1, messages, fullText, events =>
    if (model messages).finishReason = "tool-calls" then
      loopSteps model fuel (messages ++ (model messages).responseMessages)
        (fullText ++ textOfStream (model messages).stream)
        (events ++ eventsOfStream (model messages).stream)
    else
      (fullText ++ textOfStream (model messages).stream,
       messages ++ (model messages).responseMessages,
       events ++ eventsOfStream (model messages).stream)

/-- Result of `processTurn`, together with the full ordered event emission. -/
structure ProcessResult where
  assistantMessage : String
  messages : List ModelMessage
  events : List AgentEvent

/-- Embedding of `processTurn`: append the user message to the history, emit
`start`, run at most `MAX_STEPS` model steps, then emit `done` with the
accumulated text and return it with the accumulated messages. -/
def processTurn (model : ModelFn) (history : List ModelMessage) (userMessage : String) :
    ProcessResult :=
  ⟨(loopSteps model MAX_STEPS (history ++ [⟨"user", .str userMessage⟩]) "" [.start]).1,
   (loopSteps model MAX_STEPS (history ++ [⟨"user", .str userMessage⟩]) "" [.start]).2.1,
   (loopSteps model MAX_STEPS (history ++ [⟨"user", .str userMessage⟩]) "" [.start]).2.2 ++
     [.done (loopSteps model MAX_STEPS (history ++ [⟨"user", .str userMessage⟩]) "" [.start]).1]⟩

/-- Trace of the step results the loop observes, used to state properties of
the loop: the same recursion as `loopSteps` but recording the result of each step. -/
def runSteps (model : ModelFn) : Nat → List ModelMessage → List StepResult
  | 0, _ => []
  | fuel + 1, messages =>
    if (model messages).finishReason = "tool-calls" then
      model messages :: runSteps model fuel (messages ++ (model messages).responseMessages)
    else
      [model messages]

/-- Concatenated text of a step trace. -/
def traceText : List StepResult → String
  | [] => ""
  | r :: rs => textOfStream r.stream ++ traceText rs

/-- Concatenated response messages of a step trace. -/
def traceMessages : List StepResult → List ModelMessage
  | [] => []
  | r :: rs => r.responseMessages ++ traceMessages rs

/-- Concatenated bus events of a step trace. -/
def traceEvents : List StepResult → List AgentEvent
  | [] => []
  | r :: rs => eventsOfStream r.stream ++ traceEvents rs

theorem string_append_empty (s : String) : s ++ "" = s := by
  cases s with
  | mk data => exact congrArg String.mk (List.append_nil data)

theorem string_empty_append (s : String) : "" ++ s = s := rfl

theorem string_append_assoc (a b c : String) : a ++ b ++ c = a ++ (b ++ c) := by
  cases a with
  | mk da =>
    cases b with
    | mk db =>
      cases c with
      | mk dc => exact congrArg String.mk (List.append_assoc da db dc)

theorem string_append_ne_empty_left (s t : String) (h : s ≠ "") : s ++ t ≠ "" := by
  intro hcon
  apply h
  cases s with
  | mk sd =>
    cases t with
    | mk td =>
      have hd : sd ++ td = ([] : List Char) := congrArg String.data hcon
      have hsd : sd = [] := by
        cases sd with
        | nil => rfl
        | cons c cs => simp at hd
      rw [hsd]

theorem loopSteps_eq (model : ModelFn) (fuel : Nat) :
    ∀ (messages : List ModelMessage) (fullText : String) (events : List AgentEvent),
      loopSteps model fuel messages fullText events =
        (fullText ++ traceText (runSteps model fuel messages),
         messages ++ traceMessages (runSteps model fuel messages),
         events ++ traceEvents (runSteps model fuel messages)) := by
  induction fuel with
  | zero =>
    intro messages fullText events
    simp [loopSteps, runSteps, traceText, traceMessages, traceEvents, string_append_empty]
  | succ n ih =>
    intro messages fullText events
    simp only [loopSteps, runSteps]
    by_cases h : (model messages).finishReason = "tool-calls"
    · rw [if_pos h, if_pos h, ih]
      simp [traceText, traceMessages, traceEvents, string_append_assoc, List.append_assoc]
    · rw [if_neg h, if_neg h]
      simp [traceText, traceMessages, traceEvents, string_append_empty]

theorem runSteps_length_le (model : ModelFn) (fuel : Nat) :
    ∀ messages, (runSteps model fuel messages).length ≤ fuel := by
  induction fuel with
  | zero => intro messages; simp [runSteps]
  | succ n ih =>
    intro messages
    simp only [runSteps]
    by_cases h : (model messages).finishReason = "tool-calls"
    · rw [if_pos h]
      simpa using ih (messages ++ (model messages).responseMessages)
    · rw [if_neg h]
      simp

theorem runSteps_ne_nil (model : ModelFn) (fuel : Nat) (messages : List ModelMessage)
    (h : 0 < fuel) : runSteps model fuel messages ≠ [] := by
  cases fuel with
  | zero => omega
  | succ n =>
    simp only [runSteps]
    by_cases hf : (model messages).finishReason = "tool-calls"
    · rw [if_pos hf]; simp
    · rw [if_neg hf]; simp

theorem runSteps_head (model : ModelFn) (fuel : Nat) (messages : List ModelMessage)
    (h : 0 < fuel) : (runSteps model fuel messages).head? = some (model messages) := by
  cases fuel with
  | zero => omega
  | succ n =>
    simp only [runSteps]
    by_cases hf : (model messages).finishReason = "tool-calls"
    · rw [if_pos hf]; rfl
    · rw [if_neg hf]; rfl

theorem runSteps_mid_toolcalls (model : ModelFn) (fuel : Nat) :
    ∀ messages i r, (runSteps model fuel messages).get? i = some r →
      i + 1 < (runSteps model fuel messages).length →
      r.finishReason = "tool-calls" := by
  induction fuel with
  | zero => intro messages i r hr hlen; simp [runSteps] at hr
  | succ n ih =>
    intro messages i r hr hlen
    simp only [runSteps] at hr hlen
    by_cases hf : (model messages).finishReason = "tool-calls"
    · rw [if_pos hf] at hr hlen
      cases i with
      | zero =>
        simp at hr
        rw [← hr]
        exact hf
      | succ j =>
        have hr' : (runSteps model n (messages ++ (model messages).responseMessages)).get? j =
            some r := by simpa using hr
        have hlen' : j + 1 <
            (runSteps model n (messages ++ (model messages).responseMessages)).length := by
          simp at hlen
          omega
        exact ih (messages ++ (model messages).responseMessages) j r hr' hlen'
    · rw [if_neg hf] at hlen
      simp at hlen

theorem runSteps_last_not_toolcalls (model : ModelFn) (fuel : Nat) :
    ∀ messages r, (runSteps model fuel messages).getLast? = some r →
      (runSteps model fuel messages).length < fuel →
      r.finishReason ≠ "tool-calls" := by
  induction fuel with
  | zero => intro messages r h hlen; simp [runSteps] at h
  | succ n ih =>
    intro messages r h hlen
    simp only [runSteps] at h hlen
    by_cases hf : (model messages).finishReason = "tool-calls"
    · rw [if_pos hf] at h hlen
      cases hrest : runSteps model n (messages ++ (model messages).responseMessages) with
      | nil =>
        have hpos : 0 < n := by
          rw [hrest] at hlen
          simp at hlen
          omega
        exact absurd hrest (runSteps_ne_nil model n _ hpos)
      | cons a as =>
        rw [hrest] at h hlen
        rw [List.getLast?_cons_cons] at h
        refine ih (messages ++ (model messages).responseMessages) r ?_ ?_
        · rw [hrest]; exact h
        · rw [hrest]
          simp at hlen ⊢
          omega
    · rw [if_neg hf] at h hlen
      simp at h
      rw [← h]
      exact hf

/-- C1: `processTurn` appends the user message to the working history and
emits `start` first; it performs at most `MAX_STEPS = 10` model steps, where
every step but the last finished with reason `"tool-calls"` and, whenever the
bound was not exhausted, the last step did not; on exit — including after all
ten steps, which produces the same normal `done`/return shape — it emits
`done` carrying the full accumulated assistant text and returns that text
together with the accumulated messages. -/
theorem processTurn_loop_spec (model : ModelFn) (history : List ModelMessage)
    (userMessage : String) :
    (processTurn model history userMessage).events.head? = some AgentEvent.start ∧
    ((runSteps model MAX_STEPS (history ++ [⟨"user", .str userMessage⟩])).head? =
      some (model (history ++ [⟨"user", .str userMessage⟩]))) ∧
    (runSteps model MAX_STEPS (history ++ [⟨"user", .str userMessage⟩])).length ≤ MAX_STEPS ∧
    (runSteps model MAX_STEPS (history ++ [⟨"user", .str userMessage⟩])) ≠ [] ∧
    (∀ i r, (runSteps model MAX_STEPS (history ++ [⟨"user", .str userMessage⟩])).get? i = some r →
      i + 1 < (runSteps model MAX_STEPS (history ++ [⟨"user", .str userMessage⟩])).length →
      r.finishReason = "tool-calls") ∧
    (∀ r, (runSteps model MAX_STEPS (history ++ [⟨"user", .str userMessage⟩])).getLast? = some r →
      (runSteps model MAX_STEPS (history ++ [⟨"user", .str userMessage⟩])).length < MAX_STEPS →
      r.finishReason ≠ "tool-calls") ∧
    (processTurn model history userMessage).assistantMessage =
      traceText (runSteps model MAX_STEPS (history ++ [⟨"user", .str userMessage⟩])) ∧
    (processTurn model history userMessage).messages =
      (history ++ [⟨"user", .str userMessage⟩]) ++
        traceMessages (runSteps model MAX_STEPS (history ++ [⟨"user", .str userMessage⟩])) ∧
    (processTurn model history userMessage).events =
      AgentEvent.start ::
        (traceEvents (runSteps model MAX_STEPS (history ++ [⟨"user", .str userMessage⟩])) ++
          [AgentEvent.done (processTurn model history userMessage).assistantMessage]) := by
  have hpt : processTurn model history userMessage =
      ⟨traceText (runSteps model MAX_STEPS (history ++ [⟨"user", .str userMessage⟩])),
       (history ++ [⟨"user", .str userMessage⟩]) ++
         traceMessages (runSteps model MAX_STEPS (history ++ [⟨"user", .str userMessage⟩])),
       AgentEvent.start ::
         (traceEvents (runSteps model MAX_STEPS (history ++ [⟨"user", .str userMessage⟩])) ++
           [AgentEvent.done
             (traceText (runSteps model MAX_STEPS (history ++ [⟨"user", .str userMessage⟩])))])⟩ := by
    simp only [processTurn]
    rw [loopSteps_eq]
    simp [string_empty_append]
  refine ⟨?_, runSteps_head model MAX_STEPS _ (by decide),
    runSteps_length_le model MAX_STEPS _,
    runSteps_ne_nil model MAX_STEPS _ (by decide),
    fun i r hr hlen => runSteps_mid_toolcalls model MAX_STEPS _ i r hr hlen,
    fun r h hlen => runSteps_last_not_toolcalls model MAX_STEPS _ r h hlen, ?_, ?_, ?_⟩
  · rw [hpt]
    rfl
  · rw [hpt]
  · rw [hpt]
  · rw [hpt]

/-- Two-step mock model for the loop: with only the user message in context it
calls a tool and finishes with `"tool-calls"`; once tool results are in
context it streams a final answer and stops. -/
def demoModel : ModelFn := fun messages =>
  if messages.length ≤ 1 then
    { stream := [.textDelta "Let me check. ", .toolCall "c1" "read_file" (.obj [("path", .str "a.txt")]),
        .toolResult "c1" "read_file" (.str "contents")],
      responseMessages := [⟨"assistant", .arr [.obj [("type", .str "tool-call")]]⟩,
        ⟨"tool", .arr [.obj [("type", .str "tool-result")]]⟩],
      finishReason := "tool-calls" }
  else
    { stream := [.textDelta "Done."],
      responseMessages := [⟨"assistant", .str "Done."⟩],
      finishReason := "stop" }

/-- Concrete two-step run of the loop: the turn opens with `start`, the first
step finishes with `"tool-calls"`, the second is final, and the accumulated
text is returned. -/
theorem processTurn_loop_spec_witness :
    (processTurn demoModel [] "read a.txt").events.head? = some AgentEvent.start ∧
    (∀ r, (runSteps demoModel MAX_STEPS [⟨"user", .str "read a.txt"⟩]).get? 0 = some r →
      r.finishReason = "tool-calls") ∧
    (∀ r, (runSteps demoModel MAX_STEPS [⟨"user", .str "read a.txt"⟩]).getLast? = some r →
      r.finishReason ≠ "tool-calls") ∧
    (processTurn demoModel [] "read a.txt").assistantMessage = "Let me check. Done." := by
  have h := processTurn_loop_spec demoModel [] "read a.txt"
  refine ⟨h.1, ?_, ?_, ?_⟩
  · intro r hr
    exact h.2.2.2.2.1 0 r hr (by decide)
  · intro r hr
    exact h.2.2.2.2.2.1 r hr (by decide)
  · rw [h.2.2.2.2.2.2.1]
    rfl

/-! ## Scheduled-task trace extraction (`src/api/tasks/executor.ts`) -/

/-- One `{toolName, args}` record collected from an assistant tool-call part. -/
structure ToolCallSummary where
  toolName : JValue
  args : JValue

/-- One `{toolName, result}` record collected from a tool-turn part; `result`
is `none` when `JSON.stringify` of a non-string result returned `undefined`. -/
structure ToolResultSummary where
  toolName : JValue
  result : Option String

/-- Entry of the structured output array built by `extractOutput`. -/
inductive TraceEntry where
  | assistant (content : Option String) (toolCalls : Option (List ToolCallSummary))
  | tool (results : List ToolResultSummary)

mutual

/-- JS `String(v)` coercion for the values that can appear as a text part. -/
def jsToString : JValue → String
  | .undefined => "undefined"
  | .null => "null"
  | .bool b => if b then "true" else "false"
  | .num n => toString n
  | .str s => s
  | .arr elems => jsArrayToString elems
  | .obj _ => "[object Object]"

/-- JS array-to-string coercion: elements joined with `","`, with nullish
elements contributing the empty string. -/
def jsArrayToString : List JValue → String
  | [] => ""
  | [v] =>
    match v with
    | .undefined => ""
    | .null => ""
    | v => jsToString v
  | v :: vs =>
    (match v with
     | .undefined => ""
     | .null => ""
     | v => jsToString v) ++ "," ++ jsArrayToString vs

end

/-- JS `array.join("")` over the collected text values. -/
def jsJoinEmptySep : List JValue → String
  | [] => ""
  | v :: vs =>
    (match v with
     | .undefined => ""
     | .null => ""
     | v => jsToString v) ++ jsJoinEmptySep vs

/-- The part list the content of an assistant turn is coerced to: the array
itself, a synthesized single text part for string content, else empty. -/
def assistantParts : JValue → List JValue
  | .arr ps => ps
  | .str s => [.obj [("type", .str "text"), ("text", .str s)]]
  | _ => []

/-- The part list the content of a tool turn is coerced to. -/
def toolParts : JValue → List JValue
  | .arr ps => ps
  | _ => []

/-- Collect the truthy `text` values of the `type === "text"` parts, with JS
exception semantics for the property reads. -/
def textPartsExc : List JValue → Except String (List JValue)
  | [] => .ok []
  | p :: ps =>
    match p.getPropExc "type" with
    | .error e => .error e
    | .ok ty =>
      if ty.eqStr "text" then
        match p.getPropExc "text" with
        | .error e => .error e
        | .ok tx =>
          match textPartsExc ps with
          | .error e => .error e
          | .ok rest => .ok (if tx.truthy then tx :: rest else rest)
      else
        textPartsExc ps

/-- Collect `{toolName, args}` of the `type === "tool-call"` parts, with JS
exception semantics for the property reads. -/
def toolCallsExc : List JValue → Except String (List ToolCallSummary)
  | [] => .ok []
  | p :: ps =>
    match p.getPropExc "type" with
    | .error e => .error e
    | .ok ty =>
      if ty.eqStr "tool-call" then
        match p.getPropExc "toolName" with
        | .error e => .error e
        | .ok tn =>
          match p.getPropExc "args" with
          | .error e => .error e
          | .ok ag =>
            match toolCallsExc ps with
            | .error e => .error e
            | .ok rest => .ok (⟨tn, ag⟩ :: rest)
      else
        toolCallsExc ps

/-- Collect `{toolName, result}` of the parts of a tool turn: `toolName` defaults
to `"unknown"` via `??`, a non-string `result` goes through `JSON.stringify`. -/
def toolResultsExc : List JValue → Except String (List ToolResultSummary)
  | [] => .ok []
  | p :: ps =>
    match p.getPropExc "toolName" with
    | .error e => .error e
    | .ok tn =>
      match p.getPropExc "result" with
      | .error e => .error e
      | .ok res =>
        match toolResultsExc ps with
        | .error e => .error e
        | .ok rest =>
          .ok (⟨(if tn.isNullish then .str "unknown" else tn),
                (match res with | .str s => some s | v => jsonStringify v)⟩ :: rest)

/-- Body of the `try` block of `extractOutput` for one message: builds the
entry this message contributes, or throws. -/
def extractEntryExc (msg : ModelMessage) : Except String (Option TraceEntry) :=
  if msg.role = "assistant" then
    match textPartsExc (assistantParts msg.content) with
    | .error e => .error e
    | .ok textVals =>
      match toolCallsExc (assistantParts msg.content) with
      | .error e => .error e
      | .ok toolCalls =>
        let content := if textVals.isEmpty then none else some (jsJoinEmptySep textVals)
        let toolCallsOpt := if toolCalls.isEmpty then none else some toolCalls
        .ok (if (match content with | some s => s != "" | none => false) || toolCallsOpt.isSome then
          some (.assistant content toolCallsOpt)
        else
          none)
  else if msg.role = "tool" then
    match toolResultsExc (toolParts msg.content) with
    | .error e => .error e
    | .ok results =>
      .ok (if results.isEmpty then none else some (.tool results))
  else
    .ok none

/-- The contribution of one message with the `catch` applied: a malformed message
is skipped rather than raised. -/
def extractEntry (msg : ModelMessage) : Option TraceEntry :=
  match extractEntryExc msg with
  | .ok e => e
  | .error _ => none

/-- Embedding of `extractOutput`: skip the first message, collect the entries
the remaining messages contribute. -/
def extractOutput (messages : List ModelMessage) : List TraceEntry :=
  (messages.drop 1).filterMap extractEntry

/-- Specification-side pure mirror of the text-part collection: all truthy
`text` values of `type === "text"` parts (the "all text parts" of the claim). -/
def textPartsPure (ps : List JValue) : List JValue :=
  (ps.filter (fun p => (p.getProp "type").eqStr "text" && (p.getProp "text").truthy)).map
    (fun p => p.getProp "text")

/-- Specification-side pure mirror of the tool-call collection. -/
def toolCallsPure (ps : List JValue) : List ToolCallSummary :=
  (ps.filter (fun p => (p.getProp "type").eqStr "tool-call")).map
    (fun p => ⟨p.getProp "toolName", p.getProp "args"⟩)

/-- Specification-side pure mirror of the tool-result collection, with
non-string results stringified. -/
def toolResultsPure (ps : List JValue) : List ToolResultSummary :=
  ps.map (fun p =>
    ⟨(if (p.getProp "toolName").isNullish then .str "unknown" else p.getProp "toolName"),
     (match p.getProp "result" with | .str s => some s | v => jsonStringify v)⟩)

/-- Specification-side assistant entry: content is the joined text parts,
tool calls the collected pairs, and an entry appears only when the joined
content is truthy or a tool call was collected. -/
def assistantEntryPure (ps : List JValue) : Option TraceEntry :=
  let textVals := textPartsPure ps
  let toolCalls := toolCallsPure ps
  let content := if textVals.isEmpty then none else some (jsJoinEmptySep textVals)
  let toolCallsOpt := if toolCalls.isEmpty then none else some toolCalls
  if (match content with | some s => s != "" | none => false) || toolCallsOpt.isSome then
    some (.assistant content toolCallsOpt)
  else
    none

/-- Specification-side tool entry: the summaries of all parts, emitted only
when there is at least one. -/
def toolEntryPure (ps : List JValue) : Option TraceEntry :=
  if ps.isEmpty then none else some (.tool (toolResultsPure ps))

theorem getPropExc_ok (p : JValue) (k : String) (h : p.isNullish = false) :
    p.getPropExc k = .ok (p.getProp k) := by
  cases p with
  | undefined => simp [JValue.isNullish] at h
  | null => simp [JValue.isNullish] at h
  | bool b => rfl
  | num n => rfl
  | str s => rfl
  | arr es => rfl
  | obj fs => rfl

theorem textPartsExc_ok (ps : List JValue) (h : ∀ p ∈ ps, p.isNullish = false) :
    textPartsExc ps = .ok (textPartsPure ps) := by
  induction ps with
  | nil => rfl
  | cons p ps ih =>
    have hp : p.isNullish = false := h p (by simp)
    have hrest := ih (fun q hq => h q (by simp [hq]))
    simp only [textPartsExc, getPropExc_ok p _ hp, hrest, textPartsPure, List.filter_cons]
    by_cases ht : (p.getProp "type").eqStr "text"
    · simp only [ht, if_pos rfl]
      by_cases htr : (p.getProp "text").truthy
      · simp [ht, htr, textPartsPure]
      · simp [ht, htr, textPartsPure]
    · simp [ht, textPartsPure]

theorem toolCallsExc_ok (ps : List JValue) (h : ∀ p ∈ ps, p.isNullish = false) :
    toolCallsExc ps = .ok (toolCallsPure ps) := by
  induction ps with
  | nil => rfl
  | cons p ps ih =>
    have hp : p.isNullish = false := h p (by simp)
    have hrest := ih (fun q hq => h q (by simp [hq]))
    simp only [toolCallsExc, getPropExc_ok p _ hp, hrest, toolCallsPure, List.filter_cons]
    by_cases ht : (p.getProp "type").eqStr "tool-call"
    · simp [ht, toolCallsPure]
    · simp [ht, toolCallsPure]

theorem toolResultsExc_ok (ps : List JValue) (h : ∀ p ∈ ps, p.isNullish = false) :
    toolResultsExc ps = .ok (toolResultsPure ps) := by
  induction ps with
  | nil => rfl
  | cons p ps ih =>
    have hp : p.isNullish = false := h p (by simp)
    have hrest := ih (fun q hq => h q (by simp [hq]))
    simp [toolResultsExc, getPropExc_ok p _ hp, hrest, toolResultsPure]

/-- C4: trace extraction skips the initial user message; an assistant turn
whose parts are well-formed objects contributes the entry of the claim — joined
text parts as `content`, collected `{toolName, args}` pairs as `toolCalls`,
emitted only when one of the two is non-empty (and always emitted when the
text parts are honest strings and one of the two is non-empty); a tool turn
with well-formed parts contributes `{role: tool, results}` with non-string
results stringified; and a message whose processing throws is skipped, never
raised. -/
theorem extractOutput_spec :
    (∀ (m : ModelMessage) (messages : List ModelMessage),
      extractOutput (m :: messages) = messages.filterMap extractEntry) ∧
    (∀ msg : ModelMessage, msg.role = "assistant" →
      (∀ p ∈ assistantParts msg.content, p.isNullish = false) →
      extractEntry msg = assistantEntryPure (assistantParts msg.content)) ∧
    (∀ ps : List JValue, assistantEntryPure ps ≠ none →
      textPartsPure ps ≠ [] ∨ toolCallsPure ps ≠ []) ∧
    (∀ ps : List JValue, (∀ v ∈ textPartsPure ps, ∃ s, v = .str s) →
      (textPartsPure ps ≠ [] ∨ toolCallsPure ps ≠ []) →
      assistantEntryPure ps ≠ none) ∧
    (∀ msg : ModelMessage, msg.role = "tool" →
      (∀ p ∈ toolParts msg.content, p.isNullish = false) →
      extractEntry msg = toolEntryPure (toolParts msg.content)) ∧
    (∀ (msg : ModelMessage) (e : String), extractEntryExc msg = .error e →
      extractEntry msg = none) := by
  refine ⟨fun m messages => rfl, fun msg hrole hparts => ?_, fun ps hne => ?_,
    fun ps hstr hne => ?_, fun msg hrole hparts => ?_, fun msg e herr => ?_⟩
  · simp only [extractEntry, extractEntryExc, if_pos hrole, textPartsExc_ok _ hparts,
      toolCallsExc_ok _ hparts]
    rfl
  · by_contra hcon
    push_neg at hcon
    rw [assistantEntryPure] at hne
    simp only [hcon.1, hcon.2, List.isEmpty_nil] at hne
    simp at hne
  · rw [assistantEntryPure]
    cases htv : textPartsPure ps with
    | nil =>
      have htc : toolCallsPure ps ≠ [] := by
        rcases hne with hne | hne
        · exact absurd htv hne
        · exact hne
      have h1 : (toolCallsPure ps).isEmpty = false := by
        cases h : toolCallsPure ps with
        | nil => exact absurd h htc
        | cons a as => rfl
      simp [htv, h1]
    | cons v vs =>
      obtain ⟨s, hs⟩ := hstr v (by rw [htv]; simp)
      have hvtruthy : v.truthy = true := by
        have hvmem : v ∈ textPartsPure ps := by rw [htv]; simp
        rw [textPartsPure] at hvmem
        simp only [List.mem_map] at hvmem
        obtain ⟨p, hpmem, hpv⟩ := hvmem
        have hf := List.of_mem_filter hpmem
        simp only [Bool.and_eq_true] at hf
        rw [← hpv]
        exact hf.2
      have hsne : s ≠ "" := by
        intro hcon2
        rw [hs, hcon2] at hvtruthy
        simp [JValue.truthy] at hvtruthy
      have hjoin : jsJoinEmptySep (v :: vs) = s ++ jsJoinEmptySep vs := by
        rw [hs]
        simp [jsJoinEmptySep, jsToString]
      have hjne : jsJoinEmptySep (v :: vs) ≠ "" := by
        rw [hjoin]
        exact string_append_ne_empty_left s _ hsne
      have hcond : (jsJoinEmptySep (v :: vs) != "") = true := by
        simpa using hjne
      simp [htv, hcond]
  · have hna : ¬ (msg.role = "assistant") := by
      rw [hrole]
      decide
    simp only [extractEntry, extractEntryExc, if_neg hna, if_pos hrole,
      toolResultsExc_ok _ hparts]
    rw [toolEntryPure]
    cases hps : toolParts msg.content with
    | nil => simp [hps, toolResultsPure]
    | cons a as => simp [hps, toolResultsPure]
  · simp only [extractEntry]
    rw [herr]

/-- Assistant part list used to exercise the trace extraction concretely. -/
def demoAssistantParts : List JValue :=
  [.obj [("type", .str "text"), ("text", .str "Checking. ")],
   .obj [("type", .str "tool-call"), ("toolName", .str "read_file"),
         ("args", .obj [("path", .str "a.txt")])]]

/-- Tool part list used to exercise the trace extraction concretely. -/
def demoToolParts : List JValue :=
  [.obj [("toolName", .str "read_file"), ("result", .str "contents")]]

/-- Concrete run of trace extraction: the initial user message is skipped, an
assistant turn with one text part and one tool call contributes the expected
entry, that entry is emitted, a tool turn contributes its results, and a
`null` part makes its message be skipped rather than raising. -/
theorem extractOutput_spec_witness :
    extractOutput [⟨"user", .str "go"⟩, ⟨"assistant", .arr demoAssistantParts⟩] =
      [(⟨"assistant", .arr demoAssistantParts⟩ : ModelMessage)].filterMap extractEntry ∧
    extractEntry ⟨"assistant", .arr demoAssistantParts⟩ =
      assistantEntryPure demoAssistantParts ∧
    assistantEntryPure demoAssistantParts ≠ none ∧
    extractEntry ⟨"tool", .arr demoToolParts⟩ = toolEntryPure demoToolParts ∧
    extractEntry ⟨"assistant", .arr [JValue.null]⟩ = none := by
  refine ⟨extractOutput_spec.1 _ _, extractOutput_spec.2.1 _ rfl (by decide), ?_,
    extractOutput_spec.2.2.2.2.1 _ rfl (by decide),
    extractOutput_spec.2.2.2.2.2 _ "TypeError: Cannot read properties of null" rfl⟩
  refine extractOutput_spec.2.2.2.1 demoAssistantParts ?_ ?_
  · intro v hv
    rw [show textPartsPure demoAssistantParts = [JValue.str "Checking. "] from rfl] at hv
    simp at hv
    exact ⟨"Checking. ", hv⟩
  · left
    rw [show textPartsPure demoAssistantParts = [JValue.str "Checking. "] from rfl]
    simp

/-! ## Scheduled tasks and task runs (`src/api/tasks/store.ts`,
`src/api/tasks/executor.ts`) -/

/-- Row of the `scheduled_tasks` table. -/
structure ScheduledTaskRow where
  id : String
  name : String
  description : String
  cron : String
  enabled : Nat
  created_at : Nat
  updated_at : Nat
deriving DecidableEq

/-- Status column of a task run. -/
inductive RunStatus where
  | running
  | success
  | error
deriving DecidableEq

/-- Row of the `task_runs` table. -/
structure TaskRun where
  id : String
  task_id : String
  status : RunStatus
  result : Option String
  output : Option String
  started_at : Nat
  finished_at : Option Nat
deriving DecidableEq

/-- Status argument of `completeTaskRun`, whose TypeScript type admits only
`"success" | "error"`. -/
inductive FinalStatus where
  | success
  | error
deriving DecidableEq

/-- The run status a completion writes. -/
def FinalStatus.toRunStatus : FinalStatus → RunStatus
  | .success => .success
  | .error => .error

/-- Embedding of `getTask`: `SELECT * FROM scheduled_tasks WHERE id = ?`. -/
def getTask (tasks : List ScheduledTaskRow) (taskId : String) : Option ScheduledTaskRow :=
  tasks.find? (fun t => t.id == taskId)

/-- Embedding of `hasRunningRun`: whether any run of the task has
status running. -/
def hasRunningRun (taskId : String) (runs : List TaskRun) : Bool :=
  runs.any (fun r => r.task_id == taskId && r.status == RunStatus.running)

/-- Embedding of `createTaskRun`: insert one row with status running. -/
def createTaskRun (freshRunId taskId : String) (now : Nat) (runs : List TaskRun) :
    List TaskRun :=
  runs ++ [⟨freshRunId, taskId, .running, none, none, now, none⟩]

/-- The column writes of `completeTaskRun` applied to one row. -/
def completedRow (status : FinalStatus) (result : String) (output : Option String)
    (now : Nat) (r : TaskRun) : TaskRun :=
  { r with
      status := status.toRunStatus
      result := some result
      output := output
      finished_at := some now }

/-- Embedding of `completeTaskRun`: `UPDATE task_runs SET status, result,
output, finished_at WHERE id = ?`. -/
def completeTaskRun (runId : String) (status : FinalStatus) (result : String)
    (output : Option String) (now : Nat) (runs : List TaskRun) : List TaskRun :=
  runs.map (fun r => if r.id == runId then completedRow status result output now r else r)

/-- Outcome of the awaited `processTurn` call for a scheduled fire. -/
inductive AgentOutcome where
  | ok (assistantMessage : String) (messages : List ModelMessage)
  | err (message : String)

/-- JSON value of one `{toolName, args}` trace record. -/
def toolCallSummaryToJValue (c : ToolCallSummary) : JValue :=
  .obj [("toolName", c.toolName), ("args", c.args)]

/-- JSON value of one `{toolName, result}` trace record (an undefined
stringification stays `undefined` and is later dropped by the serializer). -/
def toolResultSummaryToJValue (r : ToolResultSummary) : JValue :=
  .obj [("toolName", r.toolName),
        ("result", match r.result with | some s => .str s | none => .undefined)]

/-- JSON value of one trace entry, with the optional keys present only when
the extraction set them. -/
def traceEntryToJValue : TraceEntry → JValue
  | .assistant content toolCalls =>
    .obj ([("role", .str "assistant")] ++
      (match content with | some s => [("content", .str s)] | none => []) ++
      (match toolCalls with
       | some cs => [("toolCalls", .arr (cs.map toolCallSummaryToJValue))]
       | none => []))
  | .tool results =>
    .obj [("role", .str "tool"), ("results", .arr (results.map toolResultSummaryToJValue))]

/-- The `outputJson` computed on a successful run:
`JSON.stringify(extractOutput(result.messages))`. -/
def extractOutputJson (messages : List ModelMessage) : Option String :=
  jsonStringify (.arr ((extractOutput messages).map traceEntryToJValue))

/-- The synchronous prefix of `executeScheduledTask` — task lookup, the
`hasRunningRun` concurrency guard, and `createTaskRun` — which runs without
any intervening `await` and is therefore atomic on the event loop. Returns
the new table and the created run id, or `none` when the fire was skipped. -/
def fireGuard (tasks : List ScheduledTaskRow) (taskId freshRunId : String) (now : Nat)
    (runs : List TaskRun) : List TaskRun × Option String :=
  match getTask tasks taskId with
  | none => (runs, none)
  | some _ =>
    if hasRunningRun taskId runs then (runs, none)
    else (createTaskRun freshRunId taskId now runs, some freshRunId)

/-- Embedding of `executeScheduledTask`: guard and create, then run the agent
and complete the run with `success` (storing text and trace JSON) or `error`
(storing the thrown message). The boolean records whether `processTurn` was
invoked. -/
def executeScheduledTask (tasks : List ScheduledTaskRow) (taskId freshRunId : String)
    (nowStart nowFinish : Nat) (agent : AgentOutcome) (runs : List TaskRun) :
    List TaskRun × Bool :=
  match fireGuard tasks taskId freshRunId nowStart runs with
  | (runs1, none) => (runs1, false)
  | (runs1, some rid) =>
    match agent with
    | .ok text messages =>
      (completeTaskRun rid .success text (extractOutputJson messages) nowFinish runs1, true)
    | .err message =>
      (completeTaskRun rid .error message none nowFinish runs1, true)

/-- Number of runs of `taskId` currently in status `running`. -/
def countRunning (taskId : String) (runs : List TaskRun) : Nat :=
  (runs.filter (fun r => r.task_id == taskId && r.status == RunStatus.running)).length

/-- Transition of the task-run table: an atomic guarded fire, or the deferred
completion of some run with a final (non-running) status. -/
inductive SchedStep : List TaskRun → List TaskRun → Prop where
  | fire (tasks : List ScheduledTaskRow) (taskId freshRunId : String) (now : Nat)
      (runs : List TaskRun) :
      SchedStep runs (fireGuard tasks taskId freshRunId now runs).1
  | complete (runId : String) (status : FinalStatus) (result : String)
      (output : Option String) (now : Nat) (runs : List TaskRun) :
      SchedStep runs (completeTaskRun runId status result output now runs)

/-- Task-run tables reachable from the empty table by scheduler activity. -/
inductive SchedReachable : List TaskRun → Prop where
  | init : SchedReachable []
  | next {runs runs2 : List TaskRun} : SchedReachable runs → SchedStep runs runs2 →
      SchedReachable runs2

theorem hasRunningRun_false_count (taskId : String) (runs : List TaskRun)
    (h : hasRunningRun taskId runs = false) : countRunning taskId runs = 0 := by
  induction runs with
  | nil => rfl
  | cons r rs ih =>
    rw [hasRunningRun, List.any_cons] at h
    simp only [Bool.or_eq_false_iff] at h
    rw [countRunning, List.filter_cons, h.1]
    exact ih h.2

theorem countRunning_append (taskId : String) (xs ys : List TaskRun) :
    countRunning taskId (xs ++ ys) = countRunning taskId xs + countRunning taskId ys := by
  simp [countRunning, List.filter_append]

theorem completedRow_not_running (taskId : String) (status : FinalStatus)
    (result : String) (output : Option String) (now : Nat) (r : TaskRun) :
    ((completedRow status result output now r).task_id == taskId &&
      (completedRow status result output now r).status == RunStatus.running) = false := by
  cases status with
  | success => simp [completedRow, FinalStatus.toRunStatus]
  | error => simp [completedRow, FinalStatus.toRunStatus]

theorem countRunning_complete_le (taskId runId : String) (status : FinalStatus)
    (result : String) (output : Option String) (now : Nat) (runs : List TaskRun) :
    countRunning taskId (completeTaskRun runId status result output now runs) ≤
      countRunning taskId runs := by
  induction runs with
  | nil => exact Nat.le_refl 0
  | cons r rs ih =>
    have hstep : completeTaskRun runId status result output now (r :: rs) =
        (if r.id == runId then completedRow status result output now r else r) ::
          completeTaskRun runId status result output now rs := rfl
    rw [hstep]
    simp only [countRunning, List.filter_cons] at ih ⊢
    by_cases hid : (r.id == runId) = true
    · rw [if_pos hid, completedRow_not_running]
      by_cases hr : (r.task_id == taskId && r.status == RunStatus.running) = true
      · rw [hr]
        simp only [Bool.false_eq_true, if_false, if_true, List.length_cons]
        exact Nat.le_trans ih (Nat.le_succ _)
      · rw [Bool.not_eq_true] at hr
        rw [hr]
        simpa using ih
    · rw [Bool.not_eq_true] at hid
      rw [hid]
      simp only [Bool.false_eq_true, if_false]
      by_cases hr : (r.task_id == taskId && r.status == RunStatus.running) = true
      · rw [hr]
        simp only [if_true, List.length_cons]
        exact Nat.succ_le_succ ih
      · rw [Bool.not_eq_true] at hr
        rw [hr]
        simpa using ih

theorem countRunning_singleton_self (taskId freshRunId : String) (now : Nat) :
    countRunning taskId
      [⟨freshRunId, taskId, .running, none, none, now, none⟩] = 1 := by
  simp [countRunning]

theorem sched_step_preserves {runs runs2 : List TaskRun} (h : SchedStep runs runs2)
    (hinv : ∀ t, countRunning t runs ≤ 1) : ∀ t, countRunning t runs2 ≤ 1 := by
  cases h with
  | fire tasks taskId freshRunId now runs =>
    intro t
    rw [fireGuard]
    cases hget : getTask tasks taskId with
    | none => exact hinv t
    | some task =>
      simp only
      by_cases hrun : hasRunningRun taskId runs = true
      · rw [if_pos hrun]
        exact hinv t
      · rw [Bool.not_eq_true] at hrun
        have hnot : ¬ (hasRunningRun taskId runs = true) := by
          rw [hrun]
          exact Bool.false_ne_true
        rw [if_neg hnot]
        simp only [createTaskRun]
        rw [countRunning_append]
        by_cases ht : t = taskId
        · subst ht
          rw [hasRunningRun_false_count t runs hrun, countRunning_singleton_self]
        · have hz : countRunning t
              [⟨freshRunId, taskId, .running, none, none, now, none⟩] = 0 := by
            have hb2 : (taskId == t) = false := by
              cases hb : taskId == t with
              | true =>
                have he : taskId = t := by simpa using hb
                exact absurd he.symm ht
              | false => rfl
            simp [countRunning, hb2]
          rw [hz]
          simpa using hinv t
  | complete runId status result output now runs =>
    intro t
    exact Nat.le_trans (countRunning_complete_le t runId status result output now runs) (hinv t)

theorem sched_reachable_invariant {runs : List TaskRun} (h : SchedReachable runs) :
    ∀ t, countRunning t runs ≤ 1 := by
  induction h with
  | init => intro t; exact Nat.le_refl 0 |>.trans (Nat.zero_le 1)
  | next _ hstep ih => exact sched_step_preserves hstep ih

theorem list_map_id_of_unchanged {α : Type} (f : α → α) (l : List α)
    (h : ∀ x ∈ l, f x = x) : l.map f = l := by
  induction l with
  | nil => rfl
  | cons a as ih =>
    rw [List.map_cons, h a (by simp), ih (fun x hx => h x (by simp [hx]))]

/-- C3: when a cron fire finds a run with `status=running` for the task,
`executeScheduledTask` returns with the table unchanged and without invoking
the agent loop; otherwise it appends exactly one `running` run which the same
execution completes with status `success` or `error`; and every table
reachable by scheduler activity has at most one running run per task. -/
theorem scheduler_single_running_run :
    (∀ tasks (taskId freshRunId : String) (nowStart nowFinish : Nat) agent runs,
      hasRunningRun taskId runs = true →
      executeScheduledTask tasks taskId freshRunId nowStart nowFinish agent runs =
        (runs, false)) ∧
    (∀ tasks (taskId freshRunId : String) (nowStart nowFinish : Nat) agent runs task,
      getTask tasks taskId = some task →
      hasRunningRun taskId runs = false →
      (∀ r ∈ runs, r.id ≠ freshRunId) →
      ∃ (st : FinalStatus) (res : String) (outp : Option String),
        executeScheduledTask tasks taskId freshRunId nowStart nowFinish agent runs =
          (runs ++ [⟨freshRunId, taskId, st.toRunStatus, some res, outp, nowStart,
            some nowFinish⟩], true)) ∧
    (∀ runs, SchedReachable runs → ∀ taskId, countRunning taskId runs ≤ 1) := by
  refine ⟨fun tasks taskId freshRunId nowStart nowFinish agent runs hrun => ?_,
    fun tasks taskId freshRunId nowStart nowFinish agent runs task hget hrun hfresh => ?_,
    fun runs hreach taskId => sched_reachable_invariant hreach taskId⟩
  · rw [executeScheduledTask, fireGuard]
    cases hget : getTask tasks taskId with
    | none => rfl
    | some task => simp [hrun]
  · have hguard : fireGuard tasks taskId freshRunId nowStart runs =
        (createTaskRun freshRunId taskId nowStart runs, some freshRunId) := by
      rw [fireGuard, hget]
      simp [hrun]
    have hmapold : ∀ (status : FinalStatus) (result : String) (output : Option String),
        runs.map (fun r =>
          if r.id == freshRunId then completedRow status result output nowFinish r else r) =
          runs := by
      intro status result output
      refine list_map_id_of_unchanged _ runs (fun r hr => ?_)
      have hb2 : (r.id == freshRunId) = false := by
        cases hb : r.id == freshRunId with
        | true => exact absurd (by simpa using hb) (hfresh r hr)
        | false => rfl
      rw [hb2]
      simp
    cases agent with
    | ok text messages =>
      refine ⟨.success, text, extractOutputJson messages, ?_⟩
      rw [executeScheduledTask, hguard]
      simp only [completeTaskRun, createTaskRun, List.map_append, hmapold]
      simp [completedRow, FinalStatus.toRunStatus]
    | err message =>
      refine ⟨.error, message, none, ?_⟩
      rw [executeScheduledTask, hguard]
      simp only [completeTaskRun, createTaskRun, List.map_append, hmapold]
      simp [completedRow, FinalStatus.toRunStatus]

/-- Concrete scheduler scenario: with a running run present the fire is
skipped and nothing is written; on a fresh fire exactly one run is created
and completed with a final status; and the empty table satisfies the
invariant. -/
theorem scheduler_single_running_run_witness :
    executeScheduledTask [⟨"t1", "daily", "do it", "0 0 9 * * *", 1, 0, 0⟩] "t1" "r2" 5 9
      (.err "boom") [⟨"r1", "t1", .running, none, none, 1, none⟩] =
      ([⟨"r1", "t1", .running, none, none, 1, none⟩], false) ∧
    (∃ (st : FinalStatus) (res : String) (outp : Option String),
      executeScheduledTask [⟨"t1", "daily", "do it", "0 0 9 * * *", 1, 0, 0⟩] "t1" "r1" 5 9
        (.err "boom") [] =
        ([⟨"r1", "t1", st.toRunStatus, some res, outp, 5, some 9⟩], true)) ∧
    countRunning "t1" [] ≤ 1 := by
  refine ⟨scheduler_single_running_run.1 _ _ _ _ _ _ _ rfl, ?_,
    scheduler_single_running_run.2.2 [] SchedReachable.init "t1"⟩
  have h := scheduler_single_running_run.2.1
    [⟨"t1", "daily", "do it", "0 0 9 * * *", 1, 0, 0⟩] "t1" "r1" 5 9 (.err "boom") []
    ⟨"t1", "daily", "do it", "0 0 9 * * *", 1, 0, 0⟩ rfl rfl (by simp)
  simpa using h

/-! ## Custom-tool catalog (`src/api/tools/custom-store.ts`,
`src/api/tools/schema-utils.ts`, `src/api/tools/custom-loader.ts`,
`src/api/integrations/loader.ts`, `src/api/integrations/store.ts`) -/

/-- Row of the `custom_tools` table. -/
structure CustomToolRow where
  id : String
  name : String
  description : String
  input_schema : String
  code : String
  enabled : Nat
  integration_id : Option String
  created_at : Nat
  updated_at : Nat
deriving DecidableEq

/-- Field of the declared config schema of an integration. -/
structure ConfigField where
  key : String
  label : String
  required : Bool
deriving DecidableEq

/-- Row of the `integrations` table; `config_schema` is stored as a JSON
string but is always written via `JSON.stringify` of a `ConfigField[]`, so it
is embedded as the list itself. -/
structure IntegrationRow where
  id : String
  name : String
  description : String
  config_schema : List ConfigField
  enabled : Nat
  created_at : Nat
  updated_at : Nat
deriving DecidableEq

/-- Embedding of `getToolByName`: `SELECT * FROM custom_tools WHERE name = ?`. -/
def getToolByName (db : List CustomToolRow) (name : String) : Option CustomToolRow :=
  db.find? (fun t => t.name == name)

/-- Embedding of `listEnabledTools`: rows with `enabled = 1` (the
`ORDER BY created_at DESC` is omitted; only order-independent properties are
stated). -/
def listEnabledTools (db : List CustomToolRow) : List CustomToolRow :=
  db.filter (fun t => t.enabled == 1)

/-- Embedding of `listEnabledIntegrations`. -/
def listEnabledIntegrations (db : List IntegrationRow) : List IntegrationRow :=
  db.filter (fun i => i.enabled == 1)

/-- Embedding of `getIntegrationTools`:
`SELECT * FROM custom_tools WHERE integration_id = ?`. -/
def getIntegrationTools (integrationId : String) (toolsDb : List CustomToolRow) :
    List CustomToolRow :=
  toolsDb.filter (fun t => t.integration_id == some integrationId)

/-- Embedding of `normalizeToolSchema`: a parsed value that is `null`, not an
object, or an array becomes the empty object schema; an object whose `type`
is falsy gets `type = "object"` assigned in place. -/
def normalizeToolSchema (parsed : JValue) : JValue :=
  match parsed with
  | .obj fields =>
    if ((JValue.obj fields).getProp "type").truthy then .obj fields
    else .obj (setField fields "type" (.str "object"))
  | _ => .obj [("type", .str "object"), ("properties", .obj [])]

/-- Embedding of `parseToolSchema`, parametrized by the outcome of
`JSON.parse` on the raw string: `none` (a parse exception) propagates as the
`null` that makes the loader skip the tool; otherwise normalize. -/
def parseToolSchema (parseResult : Option JValue) : Option JValue :=
  match parseResult with
  | none => none
  | some parsed => some (normalizeToolSchema parsed)

/-- A tool as registered for the model: description, input schema, and the
stored code its execute callback closes over. -/
structure LoadedTool where
  description : String
  inputSchema : JValue
  code : String

/-- Loop body of `getCustomTools` for one row, with `parse` standing for
`JSON.parse` on the stored schema string. -/
def loadCustomTool (parse : String → Option JValue) (ct : CustomToolRow) :
    Option (String × LoadedTool) :=
  match parseToolSchema (parse ct.input_schema) with
  | none => none
  | some schema => some ("custom_" ++ ct.name, ⟨ct.description, schema, ct.code⟩)

/-- Embedding of `getCustomTools`: enabled standalone rows, each loaded under
the `custom_` prefix unless its schema string fails to parse. -/
def getCustomTools (parse : String → Option JValue) (db : List CustomToolRow) :
    List (String × LoadedTool) :=
  ((listEnabledTools db).filter (fun t => t.integration_id.isNone)).filterMap
    (loadCustomTool parse)

/-- Loop body of `getIntegrationToolSet` for one integration tool row. -/
def loadIntegrationTool (parse : String → Option JValue) (integ : IntegrationRow)
    (ct : CustomToolRow) : Option (String × LoadedTool) :=
  if ct.enabled == 0 then none
  else
    match parseToolSchema (parse ct.input_schema) with
    | none => none
    | some schema =>
      some (integ.name ++ "_" ++ ct.name,
        ⟨"[" ++ integ.name ++ "] " ++ ct.description, schema, ct.code⟩)

/-- Embedding of `getIntegrationToolSet`: tools of enabled integrations,
named `<integration>_<tool>`, skipping disabled rows and unparseable schemas. -/
def getIntegrationToolSet (parse : String → Option JValue)
    (integrations : List IntegrationRow) (toolsDb : List CustomToolRow) :
    List (String × LoadedTool) :=
  (listEnabledIntegrations integrations).flatMap (fun integ =>
    (getIntegrationTools integ.id toolsDb).filterMap (loadIntegrationTool parse integ))

theorem find_map_setField_other (fields : List (String × JValue)) (v : JValue) (k : String)
    (hk : k ≠ "type") :
    (fields.map (fun kv => if kv.1 == "type" then (kv.1, v) else kv)).find?
        (fun kv => kv.1 == k) =
      fields.find? (fun kv => kv.1 == k) := by
  induction fields with
  | nil => rfl
  | cons f fs ih =>
    rw [List.map_cons]
    by_cases hf : (f.1 == "type") = true
    · have hfeq : f.1 = "type" := by simpa using hf
      have hfk : (f.1 == k) = false := by
        cases hb : f.1 == k with
        | true =>
          have h2 : f.1 = k := by simpa using hb
          exact absurd (hfeq ▸ h2).symm hk
        | false => rfl
      rw [if_pos hf]
      rw [List.find?_cons_of_neg _ (by simp [hfk]), List.find?_cons_of_neg _ (by simp [hfk])]
      exact ih
    · rw [Bool.not_eq_true] at hf
      rw [if_neg (by simp [hf])]
      by_cases hfk : (f.1 == k) = true
      · rw [List.find?_cons_of_pos _ (by simpa using hfk),
          List.find?_cons_of_pos _ (by simpa using hfk)]
      · rw [Bool.not_eq_true] at hfk
        rw [List.find?_cons_of_neg _ (by simp [hfk]), List.find?_cons_of_neg _ (by simp [hfk])]
        exact ih

theorem find_map_setField_type (fields : List (String × JValue)) (v : JValue)
    (hany : (fields.any (fun kv => kv.1 == "type")) = true) :
    (fields.map (fun kv => if kv.1 == "type" then (kv.1, v) else kv)).find?
        (fun kv => kv.1 == "type") =
      some ("type", v) := by
  induction fields with
  | nil => simp at hany
  | cons f fs ih =>
    rw [List.map_cons]
    by_cases hf : (f.1 == "type") = true
    · have hfeq : f.1 = "type" := by simpa using hf
      rw [if_pos hf]
      rw [List.find?_cons_of_pos _ (by simpa using hf)]
      rw [hfeq]
    · rw [Bool.not_eq_true] at hf
      rw [if_neg (by simp [hf])]
      rw [List.find?_cons_of_neg _ (by simp [hf])]
      rw [List.any_cons, hf] at hany
      simp only [Bool.false_or] at hany
      exact ih hany

theorem find_append_setField_type (fields : List (String × JValue)) (v : JValue)
    (hany : (fields.any (fun kv => kv.1 == "type")) = false) :
    (fields ++ [("type", v)]).find? (fun kv => kv.1 == "type") = some ("type", v) := by
  induction fields with
  | nil => simp
  | cons f fs ih =>
    rw [List.any_cons] at hany
    simp only [Bool.or_eq_false_iff] at hany
    rw [List.cons_append, List.find?_cons_of_neg _ (by simp [hany.1])]
    exact ih hany.2

theorem find_append_setField_other (fields : List (String × JValue)) (v : JValue) (k : String)
    (hk : k ≠ "type") :
    (fields ++ [("type", v)]).find? (fun kv => kv.1 == k) =
      fields.find? (fun kv => kv.1 == k) := by
  rw [List.find?_append]
  have hnone : List.find? (fun kv => kv.1 == k) [("type", v)] = none := by
    have hb2 : ("type" == k) = false := by
      cases hb : ("type" == k) with
      | true =>
        have he : "type" = k := by simpa using hb
        exact absurd he.symm hk
      | false => rfl
    rw [List.find?_cons_of_neg _ (by simp [hb2])]
    rfl
  rw [hnone]
  cases fields.find? (fun kv => kv.1 == k) <;> rfl

theorem setField_getProp_type (fields : List (String × JValue)) (v : JValue) :
    (JValue.obj (setField fields "type" v)).getProp "type" = v := by
  rw [JValue.getProp, setField]
  by_cases hany : (fields.any (fun kv => kv.1 == "type")) = true
  · rw [if_pos hany, find_map_setField_type fields v hany]
    rfl
  · rw [Bool.not_eq_true] at hany
    rw [if_neg (by simp [hany]), find_append_setField_type fields v hany]
    rfl

theorem setField_getProp_other (fields : List (String × JValue)) (v : JValue) (k : String)
    (hk : k ≠ "type") :
    (JValue.obj (setField fields "type" v)).getProp k = (JValue.obj fields).getProp k := by
  rw [JValue.getProp, JValue.getProp, setField]
  by_cases hany : (fields.any (fun kv => kv.1 == "type")) = true
  · rw [if_pos hany, find_map_setField_other fields v k hk]
  · rw [Bool.not_eq_true] at hany
    rw [if_neg (by simp [hany]), find_append_setField_other fields v k hk]

/-- C6: the loaders drop a tool only when `JSON.parse` of its stored
`input_schema` fails; a parsed value that is not an object or whose root
`type` is missing (falsy) is normalized to a schema with `type = "object"`
(all other fields preserved), and the tool is loaded with that normalized
schema; an object with a truthy `type` is loaded unchanged. -/
theorem toolSchema_normalization_spec :
    (∀ parse db, getCustomTools parse db =
      ((listEnabledTools db).filter (fun t => t.integration_id.isNone)).filterMap
        (loadCustomTool parse)) ∧
    (∀ parse integrations toolsDb, getIntegrationToolSet parse integrations toolsDb =
      (listEnabledIntegrations integrations).flatMap (fun integ =>
        (getIntegrationTools integ.id toolsDb).filterMap (loadIntegrationTool parse integ))) ∧
    (∀ parse ct, loadCustomTool parse ct = none ↔ parse ct.input_schema = none) ∧
    (∀ parse ct v, parse ct.input_schema = some v →
      loadCustomTool parse ct =
        some ("custom_" ++ ct.name, ⟨ct.description, normalizeToolSchema v, ct.code⟩)) ∧
    (∀ parse integ ct, (ct.enabled == 0) = false →
      ((loadIntegrationTool parse integ ct = none ↔ parse ct.input_schema = none) ∧
       (∀ v, parse ct.input_schema = some v →
         loadIntegrationTool parse integ ct =
           some (integ.name ++ "_" ++ ct.name,
             ⟨"[" ++ integ.name ++ "] " ++ ct.description, normalizeToolSchema v, ct.code⟩)))) ∧
    (∀ v : JValue, (∀ fields, v ≠ .obj fields) →
      normalizeToolSchema v = .obj [("type", .str "object"), ("properties", .obj [])]) ∧
    (∀ fields, ((JValue.obj fields).getProp "type").truthy = false →
      normalizeToolSchema (.obj fields) = .obj (setField fields "type" (.str "object")) ∧
      (normalizeToolSchema (.obj fields)).getProp "type" = .str "object" ∧
      (∀ k, k ≠ "type" →
        (normalizeToolSchema (.obj fields)).getProp k = (JValue.obj fields).getProp k)) ∧
    (∀ fields, ((JValue.obj fields).getProp "type").truthy = true →
      normalizeToolSchema (.obj fields) = .obj fields) := by
  have hnorm_falsy : ∀ fields, ((JValue.obj fields).getProp "type").truthy = false →
      normalizeToolSchema (.obj fields) = .obj (setField fields "type" (.str "object")) := by
    intro fields h
    rw [normalizeToolSchema]
    rw [if_neg (by simp [h])]
  refine ⟨fun parse db => rfl, fun parse integrations toolsDb => rfl,
    fun parse ct => ?_, fun parse ct v hv => ?_, fun parse integ ct hen => ?_,
    fun v hv => ?_, fun fields h => ?_, fun fields h => ?_⟩
  · cases hp : parse ct.input_schema with
    | none => simp [loadCustomTool, parseToolSchema, hp]
    | some v => simp [loadCustomTool, parseToolSchema, hp]
  · simp [loadCustomTool, parseToolSchema, hv]
  · constructor
    · cases hp : parse ct.input_schema with
      | none => simp [loadIntegrationTool, parseToolSchema, hp, hen]
      | some v => simp [loadIntegrationTool, parseToolSchema, hp, hen]
    · intro v hv
      simp [loadIntegrationTool, parseToolSchema, hv, hen]
  · cases v with
    | obj fields => exact absurd rfl (hv fields)
    | undefined => rfl
    | null => rfl
    | bool b => rfl
    | num n => rfl
    | str s => rfl
    | arr es => rfl
  · refine ⟨hnorm_falsy fields h, ?_, fun k hk => ?_⟩
    · rw [hnorm_falsy fields h]
      exact setField_getProp_type fields (.str "object")
    · rw [hnorm_falsy fields h]
      exact setField_getProp_other fields (.str "object") k hk
  · rw [normalizeToolSchema]
    rw [if_pos (by simp [h])]

/-- Custom-tool row used to exercise the loader concretely: enabled,
standalone, with the schema string `"\x7b\x7d"` stored. -/
def demoToolRow : CustomToolRow :=
  ⟨"id1", "weather", "Get the weather", "\x7b\x7d", "return 1", 1, none, 0, 0⟩

/-- Concrete loader runs: a failing parse skips the tool, a parse producing
an array is salvaged to the empty object schema, an object without `type`
gets `type = "object"` with its other fields kept, and an object with `type`
loads unchanged. -/
theorem toolSchema_normalization_spec_witness :
    loadCustomTool (fun _ => none) demoToolRow = none ∧
    loadCustomTool (fun _ => some (.arr [])) demoToolRow =
      some ("custom_weather",
        ⟨"Get the weather", .obj [("type", .str "object"), ("properties", .obj [])],
          "return 1"⟩) ∧
    normalizeToolSchema (.obj [("properties", .obj [])]) =
      .obj [("properties", .obj []), ("type", .str "object")] ∧
    (normalizeToolSchema (.obj [("properties", .obj [])])).getProp "properties" =
      .obj [] ∧
    normalizeToolSchema (.obj [("type", .str "object")]) = .obj [("type", .str "object")] := by
  refine ⟨(toolSchema_normalization_spec.2.2.1 (fun _ => none) demoToolRow).mpr rfl, ?_, ?_, ?_,
    toolSchema_normalization_spec.2.2.2.2.2.2.2 [("type", .str "object")] (by decide)⟩
  · have h := toolSchema_normalization_spec.2.2.2.1 (fun _ => some (.arr []))
      demoToolRow (.arr []) rfl
    rw [h]
    have hn := toolSchema_normalization_spec.2.2.2.2.2.1 (.arr [])
      (fun fields hcon => JValue.noConfusion hcon)
    rw [hn]
    rfl
  · have h := (toolSchema_normalization_spec.2.2.2.2.2.2.1 [("properties", .obj [])]
      (by decide)).1
    rw [h]
    rfl
  · have h := (toolSchema_normalization_spec.2.2.2.2.2.2.1 [("properties", .obj [])]
      (by decide)).2.2 "properties" (by decide)
    rw [h]
    rfl

/-! ## The `create_tool` meta-tool (`src/api/agent/meta-tools.ts`) and the
update functions (`src/api/tools/custom-store.ts`, `src/api/tasks/store.ts`) -/

/-- Embedding of the regular expression test `^[a-z][a-z0-9_]*$`. -/
def matchesToolNamePattern (s : String) : Bool :=
  match s.data with
  | [] => false
  | c :: cs =>
    ('a' ≤ c && c ≤ 'z') &&
      cs.all (fun d => ('a' ≤ d && d ≤ 'z') || ('0' ≤ d && d ≤ '9') || d == '_')

/-- Own-language prefix test used to state "the returned string begins with
Error". -/
def strStartsWith (s pre : String) : Bool :=
  pre.data.isPrefixOf s.data

/-- Embedding of `createTool`: insert one enabled row (no `integration_id`
column in the INSERT, so it is `null`). -/
def createTool (freshId : String) (now : Nat) (name description input_schema code : String)
    (db : List CustomToolRow) : List CustomToolRow :=
  db ++ [⟨freshId, name, description, input_schema, code, 1, none, now, now⟩]

/-- Embedding of the `create_tool` execute callback. `compileError` is the
outcome of `new Function(...)` on the submitted code: `some message` models a
thrown syntax error. Returns the new table and the reply string. -/
def create_tool (db : List CustomToolRow) (freshId : String) (now : Nat)
    (name description : String) (input_schema : JValue) (code : String)
    (compileError : Option String) : List CustomToolRow × String :=
  if matchesToolNamePattern name = false then
    (db, "Error: Tool name must start with a lowercase letter and contain only lowercase letters, numbers, and underscores.")
  else if (getToolByName db name).isSome then
    (db, "Error: A tool named \"" ++ name ++ "\" already exists. Use update_tool to modify it.")
  else if input_schema.isArray then
    (db, "Error: input_schema must be a JSON Schema object (e.g. \x7b \"type\": \"object\", \"properties\": \x7b\x7d \x7d), not an array.")
  else
    match compileError with
    | some message => (db, "Error: Code has a syntax error: " ++ message)
    | none =>
      (createTool freshId now name description ((jsonStringify input_schema).getD "undefined")
        code db,
       "Tool \"" ++ name ++ "\" created successfully (id: " ++ freshId ++
         "). It will be available as \"custom_" ++ name ++
         "\" in the next turn. Use test_tool to verify it works.")

/-- C7: an invalid name, a duplicate name, an array schema, or a code body
that fails to compile each make `create_tool` return a string beginning with
`"Error"` while leaving the table untouched; when all four validations pass,
exactly one enabled row is appended and the reply does not begin with
`"Error"`. -/
theorem create_tool_validation_spec :
    (∀ db freshId now name description input_schema code compileError,
      matchesToolNamePattern name = false →
      create_tool db freshId now name description input_schema code compileError =
        (db, "Error: Tool name must start with a lowercase letter and contain only lowercase letters, numbers, and underscores.")) ∧
    (∀ db freshId now name description input_schema code compileError,
      matchesToolNamePattern name = true → (getToolByName db name).isSome = true →
      (create_tool db freshId now name description input_schema code compileError).1 = db ∧
      strStartsWith
        (create_tool db freshId now name description input_schema code compileError).2
        "Error" = true) ∧
    (∀ db freshId now name description input_schema code compileError,
      matchesToolNamePattern name = true → (getToolByName db name).isSome = false →
      (input_schema : JValue).isArray = true →
      (create_tool db freshId now name description input_schema code compileError).1 = db ∧
      strStartsWith
        (create_tool db freshId now name description input_schema code compileError).2
        "Error" = true) ∧
    (∀ db freshId now name description input_schema code message,
      matchesToolNamePattern name = true → (getToolByName db name).isSome = false →
      (input_schema : JValue).isArray = false →
      create_tool db freshId now name description input_schema code (some message) =
        (db, "Error: Code has a syntax error: " ++ message)) ∧
    (∀ db freshId now name description input_schema code,
      matchesToolNamePattern name = true → (getToolByName db name).isSome = false →
      (input_schema : JValue).isArray = false →
      (create_tool db freshId now name description input_schema code none).1 =
        db ++ [⟨freshId, name, description, (jsonStringify input_schema).getD "undefined",
          code, 1, none, now, now⟩] ∧
      strStartsWith (create_tool db freshId now name description input_schema code none).2
        "Error" = false) := by
  refine ⟨fun db freshId now name description input_schema code compileError hname => ?_,
    fun db freshId now name description input_schema code compileError hname hdup => ?_,
    fun db freshId now name description input_schema code compileError hname hdup harr => ?_,
    fun db freshId now name description input_schema code message hname hdup harr => ?_,
    fun db freshId now name description input_schema code hname hdup harr => ?_⟩
  · rw [create_tool.eq_def, if_pos hname]
  · rw [create_tool.eq_def, if_neg (by simp [hname]), if_pos (by simp [hdup])]
    exact ⟨rfl, rfl⟩
  · rw [create_tool.eq_def, if_neg (by simp [hname]), if_neg (by simp [hdup]),
      if_pos (by simp [harr])]
    exact ⟨rfl, rfl⟩
  · rw [create_tool.eq_def, if_neg (by simp [hname]), if_neg (by simp [hdup]),
      if_neg (by simp [harr])]
  · rw [create_tool.eq_def, if_neg (by simp [hname]), if_neg (by simp [hdup]),
      if_neg (by simp [harr])]
    exact ⟨rfl, rfl⟩

/-- Concrete runs of `create_tool`: a rejected uppercase name, a rejected
duplicate, a rejected array schema, a rejected syntax error, and a successful
creation appending one enabled row. -/
theorem create_tool_validation_spec_witness :
    create_tool [] "id9" 7 "BadName" "d" (.obj []) "return 1" none =
      ([], "Error: Tool name must start with a lowercase letter and contain only lowercase letters, numbers, and underscores.") ∧
    (create_tool [demoToolRow] "id9" 7 "weather" "d" (.obj []) "return 1" none).1 =
      [demoToolRow] ∧
    (create_tool [] "id9" 7 "lookup" "d" (.arr []) "return 1" none).1 = [] ∧
    create_tool [] "id9" 7 "lookup" "d" (.obj []) "return (" (some "Unexpected end of input") =
      ([], "Error: Code has a syntax error: Unexpected end of input") ∧
    (create_tool [] "id9" 7 "lookup" "d" (.obj []) "return 1" none).1 =
      [⟨"id9", "lookup", "d", "\x7b\x7d", "return 1", 1, none, 7, 7⟩] := by
  refine ⟨create_tool_validation_spec.1 [] "id9" 7 "BadName" "d" (.obj []) "return 1" none
      (by decide),
    (create_tool_validation_spec.2.1 [demoToolRow] "id9" 7 "weather" "d" (.obj []) "return 1"
      none (by decide) (by decide)).1,
    (create_tool_validation_spec.2.2.1 [] "id9" 7 "lookup" "d" (.arr []) "return 1" none
      (by decide) (by decide) rfl).1,
    create_tool_validation_spec.2.2.2.1 [] "id9" 7 "lookup" "d" (.obj [])
      "return (" "Unexpected end of input" (by decide) (by decide) rfl, ?_⟩
  have h := (create_tool_validation_spec.2.2.2.2 [] "id9" 7 "lookup" "d" (.obj [])
    "return 1" (by decide) (by decide) rfl).1
  rw [h]
  rfl

/-- Update payload of `updateTool`; a `none` field models an absent
(`undefined`) property. -/
structure UpdateToolInput where
  description : Option String
  input_schema : Option String
  code : Option String
  enabled : Option Nat
deriving DecidableEq

/-- The SET clause of `updateTool` applied to one row: provided columns plus
`updated_at`. -/
def applyToolUpdate (u : UpdateToolInput) (now : Nat) (r : CustomToolRow) : CustomToolRow :=
  { r with
      description := u.description.getD r.description
      input_schema := u.input_schema.getD r.input_schema
      code := u.code.getD r.code
      enabled := u.enabled.getD r.enabled
      updated_at := now }

/-- Embedding of `updateTool`: missing tool returns `null`; an update with no
provided field returns the existing row without touching the table; otherwise
rows matching the name get the provided columns and `updated_at` written, and
the freshly-read row is returned. -/
def updateTool (db : List CustomToolRow) (now : Nat) (name : String) (u : UpdateToolInput) :
    List CustomToolRow × Option CustomToolRow :=
  match getToolByName db name with
  | none => (db, none)
  | some existing =>
    if u.description.isNone && u.input_schema.isNone && u.code.isNone && u.enabled.isNone then
      (db, some existing)
    else
      (db.map (fun r => if r.name == name then applyToolUpdate u now r else r),
       getToolByName (db.map (fun r => if r.name == name then applyToolUpdate u now r else r))
         name)

/-- Embedding of `getTaskByName`. -/
def getTaskByName (tasks : List ScheduledTaskRow) (name : String) : Option ScheduledTaskRow :=
  tasks.find? (fun t => t.name == name)

/-- Update payload of `updateTask`. -/
structure UpdateTaskInput where
  description : Option String
  cron : Option String
  enabled : Option Nat
deriving DecidableEq

/-- The SET clause of `updateTask` applied to one row. -/
def applyTaskUpdate (u : UpdateTaskInput) (now : Nat) (r : ScheduledTaskRow) :
    ScheduledTaskRow :=
  { r with
      description := u.description.getD r.description
      cron := u.cron.getD r.cron
      enabled := u.enabled.getD r.enabled
      updated_at := now }

/-- Embedding of `updateTask`, with the same shape as `updateTool`. -/
def updateTask (tasks : List ScheduledTaskRow) (now : Nat) (name : String)
    (u : UpdateTaskInput) : List ScheduledTaskRow × Option ScheduledTaskRow :=
  match getTaskByName tasks name with
  | none => (tasks, none)
  | some existing =>
    if u.description.isNone && u.cron.isNone && u.enabled.isNone then
      (tasks, some existing)
    else
      (tasks.map (fun r => if r.name == name then applyTaskUpdate u now r else r),
       getTaskByName
         (tasks.map (fun r => if r.name == name then applyTaskUpdate u now r else r)) name)

/-- C10: an update whose optional fields are all absent returns the row read
from the table and performs no write (every column, `updated_at` included, is
unchanged); an update with at least one provided field rewrites exactly the
rows of that name, writing only the provided columns plus `updated_at` and
keeping `id`, `name`, every unprovided column, and all other rows intact —
for tools and for scheduled tasks alike. -/
theorem update_noop_frame_spec :
    (∀ db now name, updateTool db now name ⟨none, none, none, none⟩ =
      (db, getToolByName db name)) ∧
    (∀ tasks now name, updateTask tasks now name ⟨none, none, none⟩ =
      (tasks, getTaskByName tasks name)) ∧
    (∀ db now name u existing, getToolByName db name = some existing →
      ¬ (u.description.isNone && u.input_schema.isNone && u.code.isNone &&
          u.enabled.isNone) = true →
      (updateTool db now name u).1 =
        db.map (fun r => if r.name == name then applyToolUpdate u now r else r)) ∧
    (∀ tasks now name u existing, getTaskByName tasks name = some existing →
      ¬ (u.description.isNone && u.cron.isNone && u.enabled.isNone) = true →
      (updateTask tasks now name u).1 =
        tasks.map (fun r => if r.name == name then applyTaskUpdate u now r else r)) ∧
    (∀ u now r, (applyToolUpdate u now r).id = r.id ∧
      (applyToolUpdate u now r).name = r.name ∧
      (applyToolUpdate u now r).integration_id = r.integration_id ∧
      (applyToolUpdate u now r).created_at = r.created_at ∧
      (applyToolUpdate u now r).updated_at = now ∧
      (u.description = none → (applyToolUpdate u now r).description = r.description) ∧
      (u.input_schema = none → (applyToolUpdate u now r).input_schema = r.input_schema) ∧
      (u.code = none → (applyToolUpdate u now r).code = r.code) ∧
      (u.enabled = none → (applyToolUpdate u now r).enabled = r.enabled) ∧
      (∀ d, u.description = some d → (applyToolUpdate u now r).description = d) ∧
      (∀ s, u.input_schema = some s → (applyToolUpdate u now r).input_schema = s) ∧
      (∀ c, u.code = some c → (applyToolUpdate u now r).code = c) ∧
      (∀ e, u.enabled = some e → (applyToolUpdate u now r).enabled = e)) ∧
    (∀ u now r, (applyTaskUpdate u now r).id = r.id ∧
      (applyTaskUpdate u now r).name = r.name ∧
      (applyTaskUpdate u now r).created_at = r.created_at ∧
      (applyTaskUpdate u now r).updated_at = now ∧
      (u.description = none → (applyTaskUpdate u now r).description = r.description) ∧
      (u.cron = none → (applyTaskUpdate u now r).cron = r.cron) ∧
      (u.enabled = none → (applyTaskUpdate u now r).enabled = r.enabled) ∧
      (∀ d, u.description = some d → (applyTaskUpdate u now r).description = d) ∧
      (∀ c, u.cron = some c → (applyTaskUpdate u now r).cron = c) ∧
      (∀ e, u.enabled = some e → (applyTaskUpdate u now r).enabled = e)) := by
  refine ⟨fun db now name => ?_, fun tasks now name => ?_,
    fun db now name u existing hex hsome => ?_,
    fun tasks now name u existing hex hsome => ?_,
    fun u now r => ?_, fun u now r => ?_⟩
  · rw [updateTool]
    cases h : getToolByName db name with
    | none => rfl
    | some existing => rfl
  · rw [updateTask]
    cases h : getTaskByName tasks name with
    | none => rfl
    | some existing => rfl
  · simp only [updateTool.eq_def, hex]
    rw [if_neg hsome]
  · simp only [updateTask.eq_def, hex]
    rw [if_neg hsome]
  · refine ⟨rfl, rfl, rfl, rfl, rfl, fun h => ?_, fun h => ?_, fun h => ?_, fun h => ?_,
      fun d h => ?_, fun s h => ?_, fun c h => ?_, fun e h => ?_⟩ <;>
      simp [applyToolUpdate, h]
  · refine ⟨rfl, rfl, rfl, rfl, fun h => ?_, fun h => ?_, fun h => ?_,
      fun d h => ?_, fun c h => ?_, fun e h => ?_⟩ <;>
      simp [applyTaskUpdate, h]

/-- Concrete update runs: the all-absent update is the identity on the table
and returns the stored row; a description-only update rewrites that column
and `updated_at` while keeping the schema, code, enabled flag, and the other
rows. -/
theorem update_noop_frame_spec_witness :
    updateTool [demoToolRow] 99 "weather" ⟨none, none, none, none⟩ =
      ([demoToolRow], some demoToolRow) ∧
    updateTask [⟨"t1", "daily", "do it", "0 0 9 * * *", 1, 0, 0⟩] 99 "daily"
      ⟨none, none, none⟩ =
      ([⟨"t1", "daily", "do it", "0 0 9 * * *", 1, 0, 0⟩],
        some ⟨"t1", "daily", "do it", "0 0 9 * * *", 1, 0, 0⟩) ∧
    (updateTool [demoToolRow] 99 "weather" ⟨some "New desc", none, none, none⟩).1 =
      [⟨"id1", "weather", "New desc", "\x7b\x7d", "return 1", 1, none, 0, 99⟩] := by
  refine ⟨update_noop_frame_spec.1 [demoToolRow] 99 "weather",
    update_noop_frame_spec.2.1 [⟨"t1", "daily", "do it", "0 0 9 * * *", 1, 0, 0⟩] 99 "daily",
    ?_⟩
  have h := update_noop_frame_spec.2.2.1 [demoToolRow] 99 "weather"
    ⟨some "New desc", none, none, none⟩ demoToolRow rfl (by decide)
  rw [h]
  rfl

/-! ## Filesystem sandbox root (`src/api/tools/fs.ts`) -/

/-- Split a character list at every `/`. -/
def splitSlash : List Char → List (List Char)
  | [] => [[]]
  | c :: cs =>
    if c = '/' then [] :: splitSlash cs
    else
      match splitSlash cs with
      | r :: rs => (c :: r) :: rs
      | [] => [[c]]

/-- POSIX normalization of the component list of an absolute path: drop empty
and `.` components, make `..` remove the previous component (staying at the
root when there is none). -/
def normalizeComponents (comps : List (List Char)) : List (List Char) :=
  comps.foldl (fun acc c =>
    if c = [] ∨ c = ['.'] then acc
    else if c = ['.', '.'] then acc.dropLast
    else acc ++ [c]) []

/-- Render a normalized component list as an absolute path string. -/
def joinAbs (comps : List (List Char)) : String :=
  match comps with
  | [] => "/"
  | _ => comps.foldl (fun acc c => acc ++ "/" ++ String.mk c) ""

/-- Normalization of one absolute path. -/
def resolveAbs (s : String) : String :=
  joinAbs (normalizeComponents (splitSlash s.data))

/-- Embedding of `path.resolve(SANDBOX_ROOT, relativePath)` for an absolute
`SANDBOX_ROOT` (the code uses `TOOLS_FS_ROOT` or `process.cwd()`, both
absolute): an absolute second argument wins, otherwise the joined path is
normalized. -/
def nodeResolve (base rel : String) : String :=
  if strStartsWith rel "/" then resolveAbs rel
  else resolveAbs (base ++ "/" ++ rel)

/-- Embedding of `resolvePath`: resolve against the sandbox root and accept
exactly when the resolved string starts with the resolved root. -/
def resolvePath (root rel : String) : Except String String :=
  if strStartsWith (nodeResolve root rel) (resolveAbs root) then
    .ok (nodeResolve root rel)
  else
    .error "Path outside sandbox is not allowed"

/-- The semantic sandbox property: the resolved path lies under the root,
i.e. the normalized components of the root are a prefix of those of the path. -/
def isUnderRoot (root p : String) : Bool :=
  (normalizeComponents (splitSlash root.data)).isPrefixOf
    (normalizeComponents (splitSlash p.data))

/-- C9 (code bug): the guard accepts any resolution that extends the root as
a string, so a sibling directory whose name extends the final root component
escapes the sandbox: with root `/sandbox`, the relative path
`../sandbox-evil/secret` resolves to `/sandbox-evil/secret`, is accepted, and
is not under the root, while an escape to a non-prefix directory is refused
and ordinary relative paths resolve inside the root. -/
theorem resolvePath_prefix_escape :
    resolvePath "/sandbox" "../sandbox-evil/secret" = .ok "/sandbox-evil/secret" ∧
    isUnderRoot "/sandbox" "/sandbox-evil/secret" = false ∧
    resolvePath "/sandbox" "../etc/passwd" = .error "Path outside sandbox is not allowed" ∧
    resolvePath "/sandbox" "docs/a.txt" = .ok "/sandbox/docs/a.txt" ∧
    isUnderRoot "/sandbox" "/sandbox/docs/a.txt" = true := by
  refine ⟨?_, ?_, ?_, ?_, ?_⟩ <;> rfl

/-! ## The dynamic system prompt (`src/api/agent/prompt.ts`) -/

/-- The static base prompt text. -/
def BASE_PROMPT : String := "You are Envoy, a helpful coding assistant with access to tools.

You have the following built-in tools available:
- read_file: Read the contents of a file
- write_file: Write content to a file
- list_dir: List directory contents
- search_web: Search the web for information

You can also create, manage, and test custom tools:
- create_tool: Create a new custom tool (write JS code that becomes a tool)
- update_tool: Modify an existing custom tool
- delete_tool: Remove a custom tool
- list_tools: List all custom tools
- test_tool: Test a custom tool with sample input

When creating tools, the code runs as an async function body with these variables:
- input: the parsed parameters (matching the input_schema you define)
- fetch: for HTTP requests
- env: process.env for secrets (e.g. env.API_KEY)

The code must return a value. Always test tools after creating them.

You can create and manage integrations (named groups of related tools for external services):
- create_integration: Create a new integration with name, description, and required config (env vars)
- add_integration_tool: Add a tool to an existing integration
- remove_integration_tool: Remove a tool from an integration
- delete_integration: Delete an integration and all its tools
- list_integrations: List all integrations with their tools and config status

When creating an integration, define the required environment variables (e.g. API tokens) in config_schema.
Users configure credentials via the Integrations panel in the UI.
Integration tools are named \x7bintegration_name\x7d_\x7btool_name\x7d.

You can also create and manage scheduled tasks:
- schedule_task: Create a task that runs on a cron schedule (fires the agent loop)
- update_scheduled_task: Update the description, cron, or enabled status of a task
- delete_scheduled_task: Remove a scheduled task
- list_scheduled_tasks: List all scheduled tasks

When the user asks about files or directories, use the appropriate tools to help them.
Be concise and accurate. When showing file contents, format them clearly."

/-- Embedding of `isConfigured`: every required key resolves to a truthy
(set and nonempty) value in the live environment. -/
def isConfigured (env : String → Option String) (configSchema : List ConfigField) : Bool :=
  (configSchema.filter (·.required)).all (fun f => ((env f.key).getD "") != "")

/-- The `Array.prototype.join(sep)` the prompt assembly uses. -/
def joinWith (sep : String) : List String → String
  | [] => ""
  | [s] => s
  | s :: rest => s ++ sep ++ joinWith sep rest

/-- Embedding of `listEnabledTasks`. -/
def listEnabledTasks (tasks : List ScheduledTaskRow) : List ScheduledTaskRow :=
  tasks.filter (fun t => t.enabled == 1)

/-- One line of the Active integrations section: name, description, the
configured/needs-setup badge, and the enabled tool names. -/
def integrationLine (env : String → Option String) (toolsDb : List CustomToolRow)
    (i : IntegrationRow) : String :=
  "- " ++ i.name ++ ": " ++ i.description ++ " [" ++
    (if isConfigured env i.config_schema then "configured" else "needs setup") ++ "]" ++
    (if joinWith ", " (((getIntegrationTools i.id toolsDb).filter
        (fun t => t.enabled != 0)).map (fun t => i.name ++ "_" ++ t.name)) != "" then
      " (tools: " ++ joinWith ", " (((getIntegrationTools i.id toolsDb).filter
        (fun t => t.enabled != 0)).map (fun t => i.name ++ "_" ++ t.name)) ++ ")"
    else "")

/-- One line of the Custom tools available section. -/
def customToolLine (t : CustomToolRow) : String :=
  "- custom_" ++ t.name ++ ": " ++ t.description

/-- One line of the Active scheduled tasks section. -/
def taskLine (t : ScheduledTaskRow) : String :=
  "- " ++ t.name ++ ": " ++ t.description ++ " [cron: " ++ t.cron ++ "]"

/-- The enabled standalone custom tools the prompt enumerates. -/
def promptCustomTools (toolsDb : List CustomToolRow) : List CustomToolRow :=
  (listEnabledTools toolsDb).filter (fun t => t.integration_id.isNone)

/-- Prompt after the integrations section is (conditionally) appended. -/
def promptAfterIntegrations (env : String → Option String)
    (integrations : List IntegrationRow) (toolsDb : List CustomToolRow) : String :=
  if (listEnabledIntegrations integrations).isEmpty then BASE_PROMPT
  else BASE_PROMPT ++ "\n\nActive integrations:\n" ++
    joinWith "\n" ((listEnabledIntegrations integrations).map (integrationLine env toolsDb))

/-- Prompt after the custom-tools section is (conditionally) appended. -/
def promptAfterCustom (env : String → Option String) (integrations : List IntegrationRow)
    (toolsDb : List CustomToolRow) : String :=
  if (promptCustomTools toolsDb).isEmpty then promptAfterIntegrations env integrations toolsDb
  else promptAfterIntegrations env integrations toolsDb ++ "\n\nCustom tools available:\n" ++
    joinWith "\n" ((promptCustomTools toolsDb).map customToolLine)

/-- Embedding of `getSystemPrompt`: the base prompt with the current enabled
integrations, enabled standalone custom tools, and enabled scheduled tasks
appended, each section only when non-empty. -/
def getSystemPrompt (env : String → Option String) (integrations : List IntegrationRow)
    (toolsDb : List CustomToolRow) (tasks : List ScheduledTaskRow) : String :=
  if (listEnabledTasks tasks).isEmpty then promptAfterCustom env integrations toolsDb
  else promptAfterCustom env integrations toolsDb ++ "\n\nActive scheduled tasks:\n" ++
    joinWith "\n" ((listEnabledTasks tasks).map taskLine)

/-- Modelled from the spec: the system prompt the processor passes to the
model on each step of a turn. The processor revision that matches the current
prompt module is missing from the source tree (the retained revision imports
a constant that the prompt module no longer exports); per the spec the
processor calls `getSystemPrompt()` afresh on the catalogs as they are at
that turn, with no caching. -/
def systemPromptForTurn (env : String → Option String) (integrations : List IntegrationRow)
    (toolsDb : List CustomToolRow) (tasks : List ScheduledTaskRow) : String :=
  getSystemPrompt env integrations toolsDb tasks

theorem joinWith_mem_split (sep : String) :
    ∀ (xs : List String) (x : String), x ∈ xs →
      ∃ a b, joinWith sep xs = a ++ x ++ b := by
  intro xs
  induction xs with
  | nil => intro x hx; simp at hx
  | cons s rest ih =>
    intro x hx
    cases rest with
    | nil =>
      have hxs : x = s := by simpa using hx
      subst hxs
      have h1 : joinWith sep [x] = x := rfl
      exact ⟨"", "", by rw [h1, string_empty_append, string_append_empty]⟩
    | cons r rs =>
      have hjoin : joinWith sep (s :: r :: rs) = s ++ sep ++ joinWith sep (r :: rs) := rfl
      rw [List.mem_cons] at hx
      cases hx with
      | inl hxe =>
        subst hxe
        refine ⟨"", sep ++ joinWith sep (r :: rs), ?_⟩
        rw [hjoin, string_empty_append]
        simp only [string_append_assoc]
      | inr hxm =>
        obtain ⟨a, b, hab⟩ := ih x hxm
        refine ⟨s ++ sep ++ a, b, ?_⟩
        rw [hjoin, hab]
        simp only [string_append_assoc]

theorem string_ne_append_of_ne_empty (s t : String) (h : t ≠ "") : s ≠ s ++ t := by
  intro hcon
  apply h
  cases s with
  | mk sd =>
    cases t with
    | mk td =>
      have hdata : sd = sd ++ td := congrArg String.data hcon
      have hlen := congrArg List.length hdata
      rw [List.length_append] at hlen
      have hlen0 : td.length = 0 := by omega
      have h0 : td = [] := List.eq_nil_of_length_eq_zero hlen0
      rw [h0]

theorem getSystemPrompt_tail (env : String → Option String)
    (integrations : List IntegrationRow) (toolsDb : List CustomToolRow)
    (tasks : List ScheduledTaskRow) :
    ∃ rest, getSystemPrompt env integrations toolsDb tasks =
      promptAfterCustom env integrations toolsDb ++ rest := by
  rw [getSystemPrompt]
  by_cases h : (listEnabledTasks tasks).isEmpty = true
  · exact ⟨"", by rw [if_pos h, string_append_empty]⟩
  · refine ⟨"\n\nActive scheduled tasks:\n" ++
      joinWith "\n" ((listEnabledTasks tasks).map taskLine), ?_⟩
    rw [if_neg h, string_append_assoc]

/-- C8: the system prompt of a turn is `getSystemPrompt` evaluated on the
catalogs as they are at that turn — it enumerates every enabled standalone
custom tool, every enabled integration with its configured/needs-setup badge
and tool names, and every enabled scheduled task, each as a substring of the
prompt — and a turn run against a catalog holding an extra enabled custom
tool receives a different prompt than a turn run against empty catalogs. -/
theorem systemPrompt_reassembled_spec :
    (∀ env integrations toolsDb tasks,
      systemPromptForTurn env integrations toolsDb tasks =
        getSystemPrompt env integrations toolsDb tasks) ∧
    (∀ env integrations toolsDb tasks (t : CustomToolRow), t ∈ toolsDb →
      (t.enabled == 1) = true → t.integration_id = none →
      ∃ a b, getSystemPrompt env integrations toolsDb tasks =
        a ++ customToolLine t ++ b) ∧
    (∀ env integrations toolsDb tasks (i : IntegrationRow), i ∈ integrations →
      (i.enabled == 1) = true →
      ∃ a b, getSystemPrompt env integrations toolsDb tasks =
        a ++ integrationLine env toolsDb i ++ b) ∧
    (∀ env integrations toolsDb tasks (k : ScheduledTaskRow), k ∈ tasks →
      (k.enabled == 1) = true →
      ∃ a b, getSystemPrompt env integrations toolsDb tasks =
        a ++ taskLine k ++ b) ∧
    (∀ env (t : CustomToolRow), (t.enabled == 1) = true → t.integration_id = none →
      getSystemPrompt env [] [] [] ≠ getSystemPrompt env [] [t] []) := by
  refine ⟨fun env integrations toolsDb tasks => rfl,
    fun env integrations toolsDb tasks t ht hen hint => ?_,
    fun env integrations toolsDb tasks i hi hen => ?_,
    fun env integrations toolsDb tasks k hk hen => ?_,
    fun env t hen hint => ?_⟩
  · have hmem : t ∈ promptCustomTools toolsDb := by
      rw [promptCustomTools, listEnabledTools]
      rw [List.mem_filter, List.mem_filter]
      exact ⟨⟨ht, hen⟩, by simp [hint]⟩
    have hne : (promptCustomTools toolsDb).isEmpty = false := by
      cases hl : promptCustomTools toolsDb with
      | nil => rw [hl] at hmem; simp at hmem
      | cons a as => rfl
    obtain ⟨a, b, hab⟩ := joinWith_mem_split "\n" ((promptCustomTools toolsDb).map
      customToolLine) (customToolLine t) (List.mem_map_of_mem _ hmem)
    obtain ⟨rest, hrest⟩ := getSystemPrompt_tail env integrations toolsDb tasks
    refine ⟨promptAfterIntegrations env integrations toolsDb ++
      "\n\nCustom tools available:\n" ++ a, b ++ rest, ?_⟩
    rw [hrest, promptAfterCustom, if_neg (by simp [hne]), hab]
    simp only [string_append_assoc]
  · have hmem : i ∈ listEnabledIntegrations integrations := by
      rw [listEnabledIntegrations, List.mem_filter]
      exact ⟨hi, hen⟩
    have hne : (listEnabledIntegrations integrations).isEmpty = false := by
      cases hl : listEnabledIntegrations integrations with
      | nil => rw [hl] at hmem; simp at hmem
      | cons a as => rfl
    obtain ⟨a, b, hab⟩ := joinWith_mem_split "\n" ((listEnabledIntegrations integrations).map
      (integrationLine env toolsDb)) (integrationLine env toolsDb i)
      (List.mem_map_of_mem _ hmem)
    obtain ⟨rest, hrest⟩ := getSystemPrompt_tail env integrations toolsDb tasks
    have hpi : promptAfterIntegrations env integrations toolsDb =
        BASE_PROMPT ++ "\n\nActive integrations:\n" ++ (a ++ integrationLine env toolsDb i ++ b) := by
      rw [promptAfterIntegrations, if_neg (by simp [hne]), hab]
    rw [hrest, promptAfterCustom]
    by_cases hc : (promptCustomTools toolsDb).isEmpty = true
    · rw [if_pos hc, hpi]
      refine ⟨BASE_PROMPT ++ "\n\nActive integrations:\n" ++ a, b ++ rest, ?_⟩
      simp only [string_append_assoc]
    · rw [if_neg hc, hpi]
      refine ⟨BASE_PROMPT ++ "\n\nActive integrations:\n" ++ a,
        b ++ ("\n\nCustom tools available:\n" ++
          joinWith "\n" ((promptCustomTools toolsDb).map customToolLine)) ++ rest, ?_⟩
      simp only [string_append_assoc]
  · have hmem : k ∈ listEnabledTasks tasks := by
      rw [listEnabledTasks, List.mem_filter]
      exact ⟨hk, hen⟩
    have hne : (listEnabledTasks tasks).isEmpty = false := by
      cases hl : listEnabledTasks tasks with
      | nil => rw [hl] at hmem; simp at hmem
      | cons a as => rfl
    obtain ⟨a, b, hab⟩ := joinWith_mem_split "\n" ((listEnabledTasks tasks).map taskLine)
      (taskLine k) (List.mem_map_of_mem _ hmem)
    refine ⟨promptAfterCustom env integrations toolsDb ++ "\n\nActive scheduled tasks:\n" ++ a,
      b, ?_⟩
    rw [getSystemPrompt, if_neg (by simp [hne]), hab]
    simp only [string_append_assoc]
  · have h1 : getSystemPrompt env [] [] [] = BASE_PROMPT := rfl
    have hne : (promptCustomTools [t]).isEmpty = false := by
      rw [promptCustomTools, listEnabledTools]
      simp [hen, hint]
    have h2 : getSystemPrompt env [] [t] [] =
        BASE_PROMPT ++ ("\n\nCustom tools available:\n" ++
          joinWith "\n" ((promptCustomTools [t]).map customToolLine)) := by
      rw [getSystemPrompt,
        if_pos (show (listEnabledTasks ([] : List ScheduledTaskRow)).isEmpty = true from rfl),
        promptAfterCustom, if_neg (by simp [hne])]
      rw [string_append_assoc]
      rfl
    rw [h1, h2]
    refine string_ne_append_of_ne_empty _ _ ?_
    intro hcon
    have hdata := congrArg String.data hcon
    simp at hdata

/-- Concrete prompt runs: a catalog with one enabled custom tool, one
integration, and one task yields a prompt containing each enumeration line,
and differs from the prompt of the empty catalog. -/
theorem systemPrompt_reassembled_spec_witness :
    (∃ a b, getSystemPrompt (fun _ => some "tok") [] [demoToolRow] [] =
      a ++ customToolLine demoToolRow ++ b) ∧
    (∃ a b, getSystemPrompt (fun _ => some "tok")
      [⟨"i1", "asana", "Asana integration", [⟨"ASANA_TOKEN", "Token", true⟩], 1, 0, 0⟩] [] [] =
      a ++ integrationLine (fun _ => some "tok") []
        ⟨"i1", "asana", "Asana integration", [⟨"ASANA_TOKEN", "Token", true⟩], 1, 0, 0⟩ ++ b) ∧
    (∃ a b, getSystemPrompt (fun _ => some "tok") [] []
      [⟨"t1", "daily", "do it", "0 0 9 * * *", 1, 0, 0⟩] =
      a ++ taskLine ⟨"t1", "daily", "do it", "0 0 9 * * *", 1, 0, 0⟩ ++ b) ∧
    getSystemPrompt (fun _ => some "tok") [] [] [] ≠
      getSystemPrompt (fun _ => some "tok") [] [demoToolRow] [] := by
  refine ⟨systemPrompt_reassembled_spec.2.1 (fun _ => some "tok") [] [demoToolRow] []
      demoToolRow (by simp) rfl rfl,
    systemPrompt_reassembled_spec.2.2.1 (fun _ => some "tok")
      [⟨"i1", "asana", "Asana integration", [⟨"ASANA_TOKEN", "Token", true⟩], 1, 0, 0⟩] [] []
      ⟨"i1", "asana", "Asana integration", [⟨"ASANA_TOKEN", "Token", true⟩], 1, 0, 0⟩
      (by simp) rfl,
    systemPrompt_reassembled_spec.2.2.2.1 (fun _ => some "tok") [] []
      [⟨"t1", "daily", "do it", "0 0 9 * * *", 1, 0, 0⟩]
      ⟨"t1", "daily", "do it", "0 0 9 * * *", 1, 0, 0⟩ (by simp) rfl,
    systemPrompt_reassembled_spec.2.2.2.2 (fun _ => some "tok") demoToolRow rfl rfl⟩

end Envoy
